import Mathlib

/-!
Shallow embedding of the compositional-reasoning-finetuning repository
(src/data_loaders.py and src/training_utils.py), together with proofs about
the behaviour of its data loaders, example splitter, data generator and
post-processing filters.

Python strings are modelled as lists of characters, Python exceptions by an
explicit error type (functions that can raise return Except), numpy integer
arrays and Python lists of integers by lists of integers tagged with their
container kind, and the JSON files the filters read and write by lists of
flat records whose values are strings or integers (the record shape of the
fine-tuning data: prompt, target, answer, num_prompt_tokens).
-/

/-- Python exception kinds raised by the modelled code. -/
inductive PyError where
  | keyError : PyError
  | typeError : PyError
  | valueError : PyError
  | attributeError : PyError
deriving DecidableEq

/-- Whitespace as matched by the regex class backslash-s and by str.strip,
restricted to the ASCII range: space, tab, newline, carriage return,
vertical tab, form feed. -/
def pyIsSpace (c : Char) : Bool :=
  c = ' ' || c = '\t' || c = '\n' || c = '\r' || c = '\x0b' || c = '\x0c'

/-- Python str.strip: remove leading and trailing whitespace. -/
def pyStrip (s : List Char) : List Char :=
  ((s.dropWhile pyIsSpace).reverse.dropWhile pyIsSpace).reverse

/-! ## extract_answer_from_target (src/training_utils.py lines 198-210)

The pattern is r'answer is\s*([^\.]+)\.' and is applied with re.search:
the leftmost start position at which the whole pattern matches wins, and at
that position the whitespace star and the capture group are greedy, with
backtracking.  In the character class, backslash-dot is the same as a plain
dot, so the class matches every character except the dot. -/

/-- The literal leading part of the pattern. -/
def answerIsLit : List Char := "answer is".toList

/-- One attempt of the pattern tail at a fixed start position, with exactly
u characters consumed by the whitespace star: the capture group takes the
maximal nonempty run of non-dot characters and a literal dot must follow. -/
def tryCapture (rest : List Char) (u : Nat) : Option (List Char) :=
  let after := rest.drop u
  let v := after.takeWhile (fun c => c ≠ '.')
  if v ≠ [] ∧ (after.drop v.length).head? = some '.' then some v else none

/-- Greedy matching of the whitespace star with backtracking: the number of
characters it consumes is tried from u downwards. -/
def matchLoop (rest : List Char) : Nat → Option (List Char)
  | 0 => tryCapture rest 0
  | u + 1 =>
    match tryCapture rest (u + 1) with
    | some v => some v
    | none => matchLoop rest u

/-- Match of the pattern tail at a fixed start position: the whitespace star
first consumes the maximal whitespace run, then backtracks as needed. -/
def matchTail (rest : List Char) : Option (List Char) :=
  matchLoop rest (rest.takeWhile pyIsSpace).length

/-- re.search of the whole pattern: try each start position from the left,
and the first position at which the whole pattern matches wins. -/
def searchAnswer : List Char → Option (List Char)
  | [] => none
  | c :: cs =>
    if answerIsLit.isPrefixOf (c :: cs) then
      match matchTail ((c :: cs).drop answerIsLit.length) with
      | some v => some v
      | none => searchAnswer cs
    else searchAnswer cs

/-- Model of extract_answer_from_target: re.search the pattern in the
target; on a match return the captured group with surrounding whitespace
stripped, otherwise None (no exception is raised). -/
def extract_answer_from_target (target : String) : Option String :=
  (searchAnswer target.toList).map (fun v => (pyStrip v).asString)

/-! ## MultihopQADataGenerator (src/training_utils.py lines 60-117) -/

/-- One row of the JSON-backed dataframe read by the data generator: the
prompt and target column values, already stringified. -/
structure RowData where
  prompt : List Char
  target : List Char
deriving DecidableEq

/-- The dynamic type of the row_order attribute: a numpy integer array right
after construction, a Python list after a shuffling epoch end. -/
inductive RowOrder where
  | nparray : List Int → RowOrder
  | pylist : List Int → RowOrder
deriving DecidableEq

/-- The elements of a row-order value, forgetting the container kind. -/
def RowOrder.toList : RowOrder → List Int
  | .nparray l => l
  | .pylist l => l

/-- State of a MultihopQADataGenerator.  The external tokenizer and model
are opaque collaborators of the batch encoder and are omitted; the data
field stands for the contents of the backing JSON file, which the generator
re-reads on every item access. -/
structure MultihopQADataGenerator where
  n_examples : Nat
  data : List RowData
  batch_size : Nat
  shuffle : Bool
  row_order : RowOrder
deriving DecidableEq

/-- np.arange(1, n_examples + 1). -/
def initRowOrder (n : Nat) : List Int :=
  (List.range n).map (fun i => Int.ofNat i + 1)

/-- Generator state as first assigned by the constructor, before the
on_epoch_end call the constructor performs (src/training_utils.py 79-81). -/
def rawGen (n : Nat) (data : List RowData) (b : Nat) (sh : Bool) :
    MultihopQADataGenerator :=
  ⟨n, data, b, sh, RowOrder.nparray (initRowOrder n)⟩

/-- len(generator): n_examples // batch_size (src/training_utils.py 83-85).
The claims only concern a positive batch size, where Python floor division
and natural division agree. -/
def genLen (g : MultihopQADataGenerator) : Nat :=
  g.n_examples / g.batch_size

/-- Elementwise numpy addition of two one-dimensional integer arrays with
broadcasting: the lengths must be equal or one of them must be 1, otherwise
numpy raises a ValueError. -/
def npAdd (a b : List Int) : Except PyError (List Int) :=
  if a.length = b.length then .ok (List.zipWith (fun x y => x + y) a b)
  else if a.length = 1 then .ok (b.map (fun x => a.headI + x))
  else if b.length = 1 then .ok (a.map (fun x => x + b.headI))
  else .error .valueError

/-- The expression row_order[:batch_start] + row_order[batch_end:] building
batch_idx_skip (src/training_utils.py line 93): list concatenation when
row_order is a Python list, elementwise numpy addition of the two slices
when it is a numpy array. -/
def skipExpr (ro : RowOrder) (bs be : Nat) : Except PyError (List Int) :=
  match ro with
  | .pylist l => .ok (l.take bs ++ l.drop be)
  | .nparray l => npAdd (l.take bs) (l.drop be)

/-- Python slice l[a:b] for 0 <= a <= b, clamped at the list length. -/
def pySlice (l : List RowData) (a b : Nat) : List RowData :=
  (l.drop a).take (b - a)

/-- The text pairs of a batch: the prompt and target columns of rows
[idx * batch_size, (idx+1) * batch_size) of the backing file. -/
def batchPairs (data : List RowData) (b idx : Nat) : List (List Char × List Char) :=
  (pySlice data (idx * b) ((idx + 1) * b)).map (fun r => (r.prompt, r.target))

/-- generator[idx] (src/training_utils.py lines 87-106): evaluates the
unused batch_idx_skip expression (which can raise), then slices the rows
[batch_start, batch_end) of the freshly read backing file, in file order,
and returns their (prompt, target) values, which the source hands to the
external batch encoder. -/
def getitem (g : MultihopQADataGenerator) (idx : Nat) :
    Except PyError (List (List Char × List Char)) :=
  let bs := idx * g.batch_size
  let be := (idx + 1) * g.batch_size
  match skipExpr g.row_order bs be with
  | .error e => .error e
  | .ok _ => .ok ((pySlice g.data bs be).map (fun r => (r.prompt, r.target)))

/-- One call of on_epoch_end (src/training_utils.py lines 115-117): when
shuffling is enabled, row_order becomes the Python list of a random
permutation of its elements (the chosen permutation is existentially
quantified); otherwise the state is unchanged. -/
inductive EpochEndStep : MultihopQADataGenerator → MultihopQADataGenerator → Prop where
  | shuffleOn (g : MultihopQADataGenerator) (p : List Int) (hsh : g.shuffle = true)
      (hp : p.Perm g.row_order.toList) :
      EpochEndStep g { g with row_order := RowOrder.pylist p }
  | shuffleOff (g : MultihopQADataGenerator) (hsh : g.shuffle = false) :
      EpochEndStep g g

/-- Generator states observable right after construction: the constructor
sets row_order to np.arange(1, n+1) and then calls on_epoch_end once. -/
def Constructed (n : Nat) (data : List RowData) (b : Nat) (sh : Bool)
    (g : MultihopQADataGenerator) : Prop :=
  EpochEndStep (rawGen n data b sh) g

/-- Generator states reachable from a state by any number of epoch ends. -/
def Reaches : MultihopQADataGenerator → MultihopQADataGenerator → Prop :=
  Relation.ReflTransGen EpochEndStep

/-! ## JSON values and records

The records handled by the splitter and the filters are flat mappings whose
values are strings or integers (prompt, target, answer, num_prompt_tokens
in the fine-tuning data model). -/

/-- A JSON value of the fine-tuning record shape. -/
inductive JVal where
  | jstr : List Char → JVal
  | jint : Int → JVal
deriving DecidableEq

/-- A JSON record: key-value pairs in file order.  Objects produced by
json.load have unique keys (a duplicate key in a file overwrites the
earlier one), so lookup by first occurrence is faithful here. -/
abbrev JRec := List (List Char × JVal)

/-- Python dictionary access d[k]: the value at key k, or none, in which
case the caller raises KeyError. -/
def pyDictGet : JRec → List Char → Option JVal
  | [], _ => none
  | (k', v) :: rest, k => if k' = k then some v else pyDictGet rest k

def promptKey : List Char := "prompt".toList

def targetKey : List Char := "target".toList

def answerKey : List Char := "answer".toList

def numPromptTokensKey : List Char := "num_prompt_tokens".toList

/-! ## qa_split (src/training_utils.py lines 15-28) -/

/-- Result of qa_split: the pair (questions, answers) or, in triple mode,
the triple (questions, targets, answers). -/
inductive QASplitOut where
  | two (questions answers : List JVal) : QASplitOut
  | three (questions targets answers : List JVal) : QASplitOut
deriving DecidableEq

/-- One list comprehension projecting every record to its value at key k,
left to right; the first record missing the key raises KeyError. -/
def listComprehensionGet : List JRec → List Char → Except PyError (List JVal)
  | [], _ => .ok []
  | r :: rs, k =>
    match pyDictGet r k with
    | none => .error .keyError
    | some v =>
      match listComprehensionGet rs k with
      | .error e => .error e
      | .ok vs => .ok (v :: vs)

/-- Model of qa_split: project the examples to the prompt list and the
target list (and in triple mode also the answer list). -/
def qa_split (examples : List JRec) (triple : Bool) : Except PyError QASplitOut :=
  if triple then
    match listComprehensionGet examples promptKey with
    | .error e => .error e
    | .ok qs =>
      match listComprehensionGet examples targetKey with
      | .error e => .error e
      | .ok ts =>
        match listComprehensionGet examples answerKey with
        | .error e => .error e
        | .ok ans => .ok (.three qs ts ans)
  else
    match listComprehensionGet examples promptKey with
    | .error e => .error e
    | .ok qs =>
      match listComprehensionGet examples targetKey with
      | .error e => .error e
      | .ok ans => .ok (.two qs ans)

/-! ## Dataset loaders (src/data_loaders.py)

Every loader opens a JSON file determined by its path arguments, parses it
with json.load, truncates the parsed list to its first n_examples records
when n_examples is positive, and returns it unchanged otherwise.  The
loaders are modelled on the parsed contents of their file; a missing file
or malformed JSON aborts before the truncation and outside these claims. -/

/-- The shared truncation: data[:n_examples] if n_examples > 0 else data. -/
def truncateExamples (n_examples : Int) (data : List α) : List α :=
  if 0 < n_examples then data.take n_examples.toNat else data

/-- load_2WikiMultihopQA (lines 6-34), on the parsed contents of
data/2WikiMultihopQA/<split>.json. -/
def load_2WikiMultihopQA (parsedData : List α) (n_examples : Int) : List α :=
  truncateExamples n_examples parsedData

/-- load_HotPotQA (lines 37-65), on the parsed contents of its file. -/
def load_HotPotQA (parsedData : List α) (n_examples : Int) : List α :=
  truncateExamples n_examples parsedData

/-- load_CompositionalCelebrities (lines 68-91), on the data field of the
parsed contents of its single unsplit file (the emitted warning has no
effect on the result). -/
def load_CompositionalCelebrities (parsedData : List α) (n_examples : Int) : List α :=
  truncateExamples n_examples parsedData

/-- load_FinetuningData (lines 94-117), on the parsed contents of
data/FinetuningData/<strategy>_<split>.json. -/
def load_FinetuningData (parsedData : List α) (n_examples : Int) : List α :=
  truncateExamples n_examples parsedData

/-- load_StrategyQA (lines 143-177), on the parsed contents of its file. -/
def load_StrategyQA (parsedData : List α) (n_examples : Int) : List α :=
  truncateExamples n_examples parsedData

/-! ## Decimal notation (Python str of an integer) -/

/-- Decimal digits of n, most significant first; the fuel argument bounds
the recursion depth and any fuel at least n gives the digits of n. -/
def natDumpAux : Nat → Nat → List Char
  | 0, _ => []
  | fuel + 1, n =>
    if n = 0 then [] else natDumpAux fuel (n / 10) ++ [Char.ofNat (48 + n % 10)]

/-- Python str of a natural number. -/
def natDump (n : Nat) : List Char :=
  if n = 0 then ['0'] else natDumpAux n n

/-- Python str of an integer. -/
def intDump (i : Int) : List Char :=
  if i < 0 then '-' :: natDump (-i).toNat else natDump i.toNat

/-! ## json.dumps on the record sublanguage

Default settings: item separator comma space, key separator colon space,
ensure_ascii escaping. -/

/-- Lowercase hexadecimal digit. -/
def hexDigitChar (n : Nat) : Char :=
  if n < 10 then Char.ofNat (48 + n) else Char.ofNat (87 + n)

/-- Four hexadecimal digits of n < 0x10000, most significant first. -/
def hex4 (n : Nat) : List Char :=
  [hexDigitChar (n / 4096 % 16), hexDigitChar (n / 256 % 16),
   hexDigitChar (n / 16 % 16), hexDigitChar (n % 16)]

/-- The ensure_ascii escaping of one character by json.dumps: two-character
escapes for the quote, the backslash and the common control characters,
printable ASCII unchanged, backslash-u escapes for everything else, with a
UTF-16 surrogate pair above the basic multilingual plane. -/
def escapeChar (c : Char) : List Char :=
  if c = '"' then ['\\', '"']
  else if c = '\\' then ['\\', '\\']
  else if c = '\n' then ['\\', 'n']
  else if c = '\t' then ['\\', 't']
  else if c = '\r' then ['\\', 'r']
  else if c = '\x08' then ['\\', 'b']
  else if c = '\x0c' then ['\\', 'f']
  else if 0x20 ≤ c.toNat ∧ c.toNat ≤ 0x7e then [c]
  else if c.toNat < 0x10000 then '\\' :: 'u' :: hex4 c.toNat
  else
    '\\' :: 'u' :: hex4 (0xd800 + (c.toNat - 0x10000) / 0x400) ++
      '\\' :: 'u' :: hex4 (0xdc00 + (c.toNat - 0x10000) % 0x400)

/-- json.dumps of a string: quoted and escaped. -/
def dumpString (s : List Char) : List Char :=
  '"' :: (s.map escapeChar).flatten ++ ['"']

/-- json.dumps of a value. -/
def dumpVal : JVal → List Char
  | .jstr s => dumpString s
  | .jint i => intDump i

/-- Comma-space separated concatenation (the default item separator). -/
def joinSep : List (List Char) → List Char
  | [] => []
  | [x] => x
  | x :: y :: rest => x ++ ',' :: ' ' :: joinSep (y :: rest)

/-- json.dumps of one record, with the default colon-space key separator. -/
def dumpRec (r : JRec) : List Char :=
  '{' :: joinSep (r.map (fun p => dumpString p.1 ++ ':' :: ' ' :: dumpVal p.2)) ++ ['}']

/-- json.dumps of a list of records. -/
def dumpFile (recs : List JRec) : List Char :=
  '[' :: joinSep (recs.map dumpRec) ++ [']']

/-! ## filter_token_size (src/training_utils.py lines 241-275) -/

/-- Scan of Python str.replace for a nonempty pattern: every non-overlapping
occurrence is replaced, from the left.  The fuel argument only bounds the
recursion depth; any fuel at least the input length gives the scan of the
whole input. -/
def pyReplaceGoAux (pat repl : List Char) : Nat → List Char → List Char
  | 0, s => s
  | _ + 1, [] => []
  | fuel + 1, c :: cs =>
    if pat.isPrefixOf (c :: cs) ∧ pat ≠ [] then
      repl ++ pyReplaceGoAux pat repl fuel ((c :: cs).drop pat.length)
    else
      c :: pyReplaceGoAux pat repl fuel cs

/-- Scan of Python str.replace for a nonempty pattern over a whole string. -/
def pyReplaceGo (pat repl s : List Char) : List Char :=
  pyReplaceGoAux pat repl s.length s

/-- Python str.replace(old, new): with an empty pattern, new is inserted
before every character and at the end, as Python does. -/
def pyReplace (s pat repl : List Char) : List Char :=
  if pat = [] then repl ++ (s.map (fun c => c :: repl)).flatten
  else pyReplaceGo pat repl s

def jsonExt : List Char := ".json".toList

/-- The new file name built by filter_token_size (lines 267-268): every
occurrence of .json removed from the path, then an underscore, the decimal
threshold and .json appended. -/
def filterNewName (file : List Char) (token_size : Int) : List Char :=
  pyReplace file jsonExt [] ++ '_' :: intDump token_size ++ jsonExt

/-- The list comprehension of filter_token_size: keep the records whose
num_prompt_tokens value is at most token_size, in order.  A record without
the key raises KeyError; a string value makes the Python order comparison
with an integer raise TypeError. -/
def filterTokenRecords : List JRec → Int → Except PyError (List JRec)
  | [], _ => .ok []
  | r :: rs, t =>
    match pyDictGet r numPromptTokensKey with
    | none => .error .keyError
    | some (.jstr _) => .error .typeError
    | some (.jint n) =>
      match filterTokenRecords rs t with
      | .error e => .error e
      | .ok rest => .ok (if n ≤ t then r :: rest else rest)

/-- Model of filter_token_size: filter both parsed files by
num_prompt_tokens <= token_size, serialize each retained subset with
json.dumps, and write it under the derived file name.  The result is the
list of written (file name, file contents) pairs, in write order. -/
def filter_token_size (train_file valid_file : List Char)
    (js_train js_valid : List JRec) (token_size : Int) :
    Except PyError (List (List Char × List Char)) :=
  match filterTokenRecords js_train token_size with
  | .error e => .error e
  | .ok filtered_train =>
    match filterTokenRecords js_valid token_size with
    | .error e => .error e
    | .ok filtered_dev =>
      .ok [(filterNewName train_file token_size, dumpFile filtered_train),
           (filterNewName valid_file token_size, dumpFile filtered_dev)]

/-! ## verify_answer_in_prompt (src/training_utils.py lines 213-238) -/

/-- The extraction applied to a target, at the character-list level. -/
def extractedChars (t : List Char) : Option (List Char) :=
  (searchAnswer t).map pyStrip

/-- Python substring membership a in b on strings. -/
def pyInStr (needle hay : List Char) : Bool :=
  if needle.isPrefixOf hay then true
  else
    match hay with
    | [] => false
    | _ :: cs => pyInStr needle cs

/-- The filtering loop of verify_answer_in_prompt (lines 224-228): keep the
examples whose extracted target answer is a literal substring of the
prompt.  A missing key raises KeyError; an integer target makes re.search
raise TypeError; a failed extraction makes None the left operand of the
membership test, a TypeError; an integer prompt makes the right operand of
in non-iterable, a TypeError. -/
def verifyFilterRecords : List JRec → Except PyError (List JRec)
  | [] => .ok []
  | r :: rs =>
    match pyDictGet r targetKey with
    | none => .error .keyError
    | some (.jint _) => .error .typeError
    | some (.jstr t) =>
      match extractedChars t with
      | none => .error .typeError
      | some a =>
        match pyDictGet r promptKey with
        | none => .error .keyError
        | some (.jint _) => .error .typeError
        | some (.jstr p) =>
          match verifyFilterRecords rs with
          | .error e => .error e
          | .ok rest => .ok (if pyInStr a p then r :: rest else rest)

/-- The closed file handle the source rebinds the loop variable file to
(line 220): a TextIOWrapper wrapping the path string it was opened from. -/
structure PyFileHandle where
  path : List Char

/-- The expression file.replace(".json", "") at line 234: file is the
closed file handle, not the path string, and a TextIOWrapper object has no
replace attribute, so the call raises AttributeError. -/
def handleReplaceJson (_fileHandle : PyFileHandle) : Except PyError (List Char) :=
  .error .attributeError

/-- Processing of one file by verify_answer_in_prompt (loop body, lines
220-238): load, filter, serialize with json.dumps, derive the new name from
the closed handle, and only then write the derived file. -/
def verifyProcessFile (path : List Char) (contents : List JRec) :
    Except PyError (List Char × List Char) :=
  match verifyFilterRecords contents with
  | .error e => .error e
  | .ok filtered =>
    match handleReplaceJson ⟨path⟩ with
    | .error e => .error e
    | .ok base =>
      .ok (base ++ '_' :: "answer_verified".toList ++ jsonExt, dumpFile filtered)

/-- The loop of verify_answer_in_prompt over its two files: the first
raised exception aborts the call, keeping the writes made so far. -/
def verifyLoop : List (List Char × List JRec) → List (List Char × List Char) × Option PyError
  | [] => ([], none)
  | (path, contents) :: rest =>
    match verifyProcessFile path contents with
    | .error e => ([], some e)
    | .ok w =>
      let (ws, e) := verifyLoop rest
      (w :: ws, e)

/-- Model of verify_answer_in_prompt: process the train file then the valid
file.  The result is the list of written (file name, contents) pairs
together with the raised exception, if any. -/
def verify_answer_in_prompt (train_file valid_file : List Char)
    (js_train js_valid : List JRec) :
    List (List Char × List Char) × Option PyError :=
  verifyLoop [(train_file, js_train), (valid_file, js_valid)]

/-! ## json.load on the record sublanguage

A lexer and a recursive-descent parser for the JSON texts produced by
json.dumps for lists of flat string/integer records. -/

/-- JSON whitespace accepted between tokens. -/
def isJsonWs (c : Char) : Bool :=
  c = ' ' || c = '\t' || c = '\n' || c = '\r'

/-- Decimal digit. -/
def isDigitCh (c : Char) : Bool :=
  48 ≤ c.toNat && c.toNat ≤ 57

/-- Value of a decimal digit. -/
def digitVal (c : Char) : Nat := c.toNat - 48

/-- Accumulated value of a run of decimal digits. -/
def digitsToNat (ds : List Char) : Nat :=
  ds.foldl (fun a c => a * 10 + digitVal c) 0

/-- Value of one hexadecimal digit, either case. -/
def hexVal (c : Char) : Option Nat :=
  if 48 ≤ c.toNat ∧ c.toNat ≤ 57 then some (c.toNat - 48)
  else if 97 ≤ c.toNat ∧ c.toNat ≤ 102 then some (c.toNat - 87)
  else if 65 ≤ c.toNat ∧ c.toNat ≤ 70 then some (c.toNat - 55)
  else none

/-- Tokens of the JSON sublanguage. -/
inductive JTok where
  | lbrack : JTok
  | rbrack : JTok
  | lbrace : JTok
  | rbrace : JTok
  | comma : JTok
  | colon : JTok
  | tstr : List Char → JTok
  | tint : Int → JTok
deriving DecidableEq

/-- Helper prepending a character to a pending string-body result and
adding the k characters its encoding consumed to the consumed count. -/
def consChar (c : Char) (k : Nat) : Option (List Char × Nat) → Option (List Char × Nat)
  | some (s, m) => some (c :: s, k + m)
  | none => none

/-- Decoding of one escape sequence of a JSON string, given the input after
the backslash: the decoded character and the number of input characters the
escape consumed, the backslash included.  A backslash-u high surrogate is
combined with a following backslash-u low surrogate, as json.load does; a
lone surrogate is representable in a Python str but not as a character
here, so it is rejected. -/
def lexEscape (r : List Char) : Option (Char × Nat) :=
  match r with
  | [] => none
  | e :: r1 =>
    if e = '"' then some ('"', 2)
    else if e = '\\' then some ('\\', 2)
    else if e = '/' then some ('/', 2)
    else if e = 'n' then some ('\n', 2)
    else if e = 't' then some ('\t', 2)
    else if e = 'r' then some ('\r', 2)
    else if e = 'b' then some ('\x08', 2)
    else if e = 'f' then some ('\x0c', 2)
    else if e = 'u' then
      match r1 with
      | h1 :: h2 :: h3 :: h4 :: r2 =>
        match hexVal h1, hexVal h2, hexVal h3, hexVal h4 with
        | some a, some b, some c3, some d =>
          let n := a * 4096 + b * 256 + c3 * 16 + d
          if n < 0xd800 ∨ 0xdfff < n then some (Char.ofNat n, 6)
          else if n ≤ 0xdbff then
            match r2 with
            | b1 :: b2 :: g1 :: g2 :: g3 :: g4 :: _ =>
              if b1 = '\\' ∧ b2 = 'u' then
                match hexVal g1, hexVal g2, hexVal g3, hexVal g4 with
                | some a2, some b2v, some c2, some d2 =>
                  let m := a2 * 4096 + b2v * 256 + c2 * 16 + d2
                  if 0xdc00 ≤ m ∧ m ≤ 0xdfff then
                    some (Char.ofNat (0x10000 + (n - 0xd800) * 0x400 + (m - 0xdc00)), 12)
                  else none
                | _, _, _, _ => none
              else none
            | _ => none
          else none
        | _, _, _, _ => none
      | _ => none
    else none

/-- Lexing of a JSON string body after the opening quote, as json.load does
in strict mode: plain characters up to the closing quote, control
characters rejected, escape sequences decoded by lexEscape.  Returns the
decoded string and the number of input characters consumed, the closing
quote included. -/
def lexString : List Char → Option (List Char × Nat)
  | [] => none
  | c :: rest =>
    if c = '"' then some ([], 1)
    else if c = '\\' then
      match lexEscape rest with
      | some (ch, k) => consChar ch k (lexString (rest.drop (k - 1)))
      | none => none
    else if c.toNat < 0x20 then none
    else consChar c 1 (lexString rest)
termination_by s => s.length
decreasing_by all_goals (simp [List.length_drop]; try omega)

/-- Lexer for a JSON text: whitespace between tokens skipped, punctuation,
strings, and optionally negative integer literals. -/
def lexJson : List Char → Option (List JTok)
  | [] => some []
  | c :: rest =>
    if isJsonWs c then lexJson rest
    else if c = '[' then (lexJson rest).map (fun ts => JTok.lbrack :: ts)
    else if c = ']' then (lexJson rest).map (fun ts => JTok.rbrack :: ts)
    else if c = '{' then (lexJson rest).map (fun ts => JTok.lbrace :: ts)
    else if c = '}' then (lexJson rest).map (fun ts => JTok.rbrace :: ts)
    else if c = ',' then (lexJson rest).map (fun ts => JTok.comma :: ts)
    else if c = ':' then (lexJson rest).map (fun ts => JTok.colon :: ts)
    else if c = '"' then
      match lexString rest with
      | some (str, k) => (lexJson (rest.drop k)).map (fun ts => JTok.tstr str :: ts)
      | none => none
    else if c = '-' then
      let ds := rest.takeWhile isDigitCh
      if ds = [] then none
      else
        (lexJson (rest.drop ds.length)).map
          (fun ts => JTok.tint (-(digitsToNat ds : Int)) :: ts)
    else if isDigitCh c then
      let ds := rest.takeWhile isDigitCh
      (lexJson (rest.drop ds.length)).map
        (fun ts => JTok.tint ((digitsToNat (c :: ds) : Int)) :: ts)
    else none
termination_by s => s.length
decreasing_by all_goals (simp [List.length_drop]; try omega)

/-- A primitive token as a value of the record sublanguage. -/
def parseValTok : JTok → Option JVal
  | .tstr s => some (.jstr s)
  | .tint i => some (.jint i)
  | _ => none

/-- Parsing of the continuation of a record body: a closing brace, or a
comma followed by one more key-value pair.  Returns the parsed pairs and
the number of tokens consumed. -/
def parsePairsRest : List JTok → Option (JRec × Nat)
  | JTok.rbrace :: _ => some ([], 1)
  | JTok.comma :: JTok.tstr k :: JTok.colon :: v :: ts =>
    match parseValTok v with
    | none => none
    | some jv =>
      match parsePairsRest ts with
      | none => none
      | some (r, m) => some ((k, jv) :: r, 4 + m)
  | _ => none

/-- Parsing of one record: an opening brace, an optional first key-value
pair, then the record-body continuation. -/
def parseRecTok : List JTok → Option (JRec × Nat)
  | JTok.lbrace :: JTok.rbrace :: _ => some ([], 2)
  | JTok.lbrace :: JTok.tstr k :: JTok.colon :: v :: ts =>
    match parseValTok v with
    | none => none
    | some jv =>
      match parsePairsRest ts with
      | none => none
      | some (r, m) => some ((k, jv) :: r, 4 + m)
  | _ => none

/-- Parsing of the continuation of the top-level array: a closing bracket,
or a comma followed by one more record. -/
def parseRecsRest : List JTok → Option (List JRec × Nat)
  | JTok.rbrack :: _ => some ([], 1)
  | JTok.comma :: ts =>
    match parseRecTok ts with
    | none => none
    | some (r, k) =>
      match parseRecsRest (ts.drop k) with
      | none => none
      | some (rs, m) => some (r :: rs, 1 + k + m)
  | _ => none
termination_by ts => ts.length
decreasing_by all_goals (simp [List.length_drop]; try omega)

/-- Parsing of the top-level JSON value of a filter output file: an array
of records with nothing after it. -/
def parseTokens : List JTok → Option (List JRec)
  | JTok.lbrack :: JTok.rbrack :: ts => if ts = [] then some [] else none
  | JTok.lbrack :: ts =>
    match parseRecTok ts with
    | none => none
    | some (r, k) =>
      match parseRecsRest (ts.drop k) with
      | none => none
      | some (rs, m) => if (ts.drop k).drop m = [] then some (r :: rs) else none
  | _ => none

/-- json.load on the text of a file of flat records. -/
def parseJsonFile (s : List Char) : Option (List JRec) :=
  match lexJson s with
  | none => none
  | some ts => parseTokens ts

/-- Model of load_TestData (src/data_loaders.py lines 120-140), applied to
the text contents of the file at its path argument: json.load, then
truncation to the first n_examples records when n_examples is positive. -/
def load_TestData (contents : List Char) (n_examples : Int) : Option (List JRec) :=
  (parseJsonFile contents).map (truncateExamples n_examples)

/-! ## Proof-side definitions -/

/-- The declarative reading of the regex pattern occurring somewhere in a
string: a position where the literal answer-is text is followed by a
whitespace run, a nonempty dot-free capture and a literal dot. -/
def PatternOccurs (t : List Char) : Prop :=
  ∃ pre u v post, t = pre ++ answerIsLit ++ u ++ v ++ '.' :: post ∧
    (∀ c ∈ u, pyIsSpace c = true) ∧ v ≠ [] ∧ '.' ∉ v

/-- The retention test of filter_token_size on one record. -/
def keepTok (r : JRec) (token_size : Int) : Bool :=
  match pyDictGet r numPromptTokensKey with
  | some (.jint m) => m ≤ token_size
  | _ => false

/-- Whether a record has an integer num_prompt_tokens field. -/
def hasIntNumTokens (r : JRec) : Bool :=
  match pyDictGet r numPromptTokensKey with
  | some (.jint _) => true
  | _ => false

/-- The token of a primitive value. -/
def valTok : JVal → JTok
  | .jstr s => .tstr s
  | .jint i => .tint i

/-- Token sequence of the continuation of a record body. -/
def pairsRestToks : JRec → List JTok
  | [] => [JTok.rbrace]
  | p :: ps => JTok.comma :: JTok.tstr p.1 :: JTok.colon :: valTok p.2 :: pairsRestToks ps

/-- Token sequence of one record. -/
def recToks : JRec → List JTok
  | [] => [JTok.lbrace, JTok.rbrace]
  | p :: ps => JTok.lbrace :: JTok.tstr p.1 :: JTok.colon :: valTok p.2 :: pairsRestToks ps

/-- Token sequence of the continuation of the top-level array. -/
def recsRestToks : List JRec → List JTok
  | [] => [JTok.rbrack]
  | r :: rs => JTok.comma :: (recToks r ++ recsRestToks rs)

/-- Token sequence of a whole file of records. -/
def fileToks : List JRec → List JTok
  | [] => [JTok.lbrack, JTok.rbrack]
  | r :: rs => JTok.lbrack :: (recToks r ++ recsRestToks rs)

/-- The text of one record's key-value pair as laid out by json.dumps. -/
def pairDump (p : List Char × JVal) : List Char :=
  dumpString p.1 ++ ':' :: ' ' :: dumpVal p.2

/-- The comma-space separated continuation pairs of a record body. -/
def pairsSepDump (ps : JRec) : List Char :=
  (ps.map (fun p => ',' :: ' ' :: pairDump p)).flatten

/-- The comma-space separated continuation records of a file. -/
def recsSepDump (rs : List JRec) : List Char :=
  (rs.map (fun r => ',' :: ' ' :: dumpRec r)).flatten

/-! ## Lemmas about the data generator -/

theorem epochEnd_fields {g g' : MultihopQADataGenerator} (h : EpochEndStep g g') :
    g'.n_examples = g.n_examples ∧ g'.data = g.data ∧
    g'.batch_size = g.batch_size ∧ g'.shuffle = g.shuffle := by
  cases h with
  | shuffleOn p hsh hp => exact ⟨rfl, rfl, rfl, rfl⟩
  | shuffleOff hsh => exact ⟨rfl, rfl, rfl, rfl⟩

theorem reaches_fields {g g' : MultihopQADataGenerator} (h : Reaches g g') :
    g'.n_examples = g.n_examples ∧ g'.data = g.data ∧
    g'.batch_size = g.batch_size ∧ g'.shuffle = g.shuffle := by
  induction h with
  | refl => exact ⟨rfl, rfl, rfl, rfl⟩
  | tail _ hstep ih =>
    have hf := epochEnd_fields hstep
    exact ⟨hf.1.trans ih.1, hf.2.1.trans ih.2.1, hf.2.2.1.trans ih.2.2.1,
      hf.2.2.2.trans ih.2.2.2⟩

theorem reaches_shuffle_false_eq {g g' : MultihopQADataGenerator}
    (hsh : g.shuffle = false) (h : Reaches g g') : g' = g := by
  induction h with
  | refl => rfl
  | tail _ hstep ih =>
    subst ih
    cases hstep with
    | shuffleOn p hsh2 hp => rw [hsh2] at hsh; cases hsh
    | shuffleOff hsh2 => rfl

theorem constructed_fields {n : Nat} {data : List RowData} {b : Nat} {sh : Bool}
    {g : MultihopQADataGenerator} (hc : Constructed n data b sh g) :
    g.n_examples = n ∧ g.data = data ∧ g.batch_size = b ∧ g.shuffle = sh :=
  epochEnd_fields hc

theorem constructed_true_pylist {n : Nat} {data : List RowData} {b : Nat}
    {g : MultihopQADataGenerator} (hc : Constructed n data b true g) :
    ∃ p, g.row_order = RowOrder.pylist p := by
  cases hc with
  | shuffleOn p hsh hp => exact ⟨p, rfl⟩
  | shuffleOff hsh => cases hsh

theorem reaches_pylist {g g' : MultihopQADataGenerator}
    (hro : ∃ p, g.row_order = RowOrder.pylist p) (h : Reaches g g') :
    ∃ p, g'.row_order = RowOrder.pylist p := by
  induction h with
  | refl => exact hro
  | tail _ hstep ih =>
    cases hstep with
    | shuffleOn p hsh hp => exact ⟨p, rfl⟩
    | shuffleOff hsh => exact ih

theorem getitem_pylist {g : MultihopQADataGenerator} {idx : Nat}
    (hro : ∃ p, g.row_order = RowOrder.pylist p) :
    getitem g idx = .ok (batchPairs g.data g.batch_size idx) := by
  obtain ⟨p, hp⟩ := hro
  simp [getitem, skipExpr, hp, batchPairs]

theorem getitem_ok_val {g : MultihopQADataGenerator} {idx : Nat}
    {res : List (List Char × List Char)} (h : getitem g idx = .ok res) :
    res = batchPairs g.data g.batch_size idx := by
  simp only [getitem] at h
  split at h
  · cases h
  · cases h
    simp [batchPairs]

theorem initRowOrder_length (n : Nat) : (initRowOrder n).length = n := by
  unfold initRowOrder
  rw [List.length_map, List.length_range]

/-- C4: For every MultihopQADataGenerator with example count n and batch
size b > 0, length() equals n // b: it is the floor of the division, i.e.
length() * b <= n < (length() + 1) * b, so the trailing examples beyond the
last full batch are dropped; in particular with n = 50 and b = 16 the
length is 3. -/
theorem c4_genLen_floor_div :
    (∀ g : MultihopQADataGenerator, 0 < g.batch_size →
      genLen g = g.n_examples / g.batch_size ∧
      genLen g * g.batch_size ≤ g.n_examples ∧
      g.n_examples < (genLen g + 1) * g.batch_size) ∧
    genLen (rawGen 50 [] 16 true) = 3 := by
  constructor
  · intro g hb
    refine ⟨rfl, Nat.div_mul_le_self _ _, ?_⟩
    have h := (Nat.div_lt_iff_lt_mul hb).mp
      (Nat.lt_succ_self (g.n_examples / g.batch_size))
    simpa [genLen] using h
  · rfl

/-- Witness for C4 at the concrete spec example: 50 examples with batch
size 16 give 3 batches, and 3 * 16 = 48 of the 50 examples are visited. -/
theorem c4_genLen_floor_div_witness :
    genLen (rawGen 50 [] 16 true) = 50 / 16 ∧
    genLen (rawGen 50 [] 16 true) * 16 ≤ 50 ∧
    (50 : Nat) < (genLen (rawGen 50 [] 16 true) + 1) * 16 :=
  c4_genLen_floor_div.1 (rawGen 50 [] 16 true) (by decide)

/-- C1 (amended): For every MultihopQADataGenerator and every batch index,
after construction and any number of epoch_end calls, item(idx) never
applies the tracked row-order permutation to the slicing: whenever it
returns a batch, that batch is built from rows
[idx*batch_size, (idx+1)*batch_size) of the backing file in original file
order — and with shuffle enabled it always returns that batch.  (With
shuffle disabled the unused skip expression can raise a broadcast error
instead of returning, which is why the claim is restricted to the returned
value.) -/
theorem c1_item_original_file_order (n : Nat) (data : List RowData) (b : Nat)
    (sh : Bool) (g g' : MultihopQADataGenerator)
    (hc : Constructed n data b sh g) (hr : Reaches g g') (idx : Nat) :
    (sh = true → getitem g' idx = .ok (batchPairs data b idx)) ∧
    (∀ res, getitem g' idx = .ok res → res = batchPairs data b idx) := by
  have hf := constructed_fields hc
  have hf' := reaches_fields hr
  have hdata : g'.data = data := hf'.2.1.trans hf.2.1
  have hbatch : g'.batch_size = b := hf'.2.2.1.trans hf.2.2.1
  constructor
  · intro hsh
    subst hsh
    have hpy := reaches_pylist (constructed_true_pylist hc) hr
    rw [getitem_pylist hpy, hdata, hbatch]
  · intro res hres
    rw [getitem_ok_val hres, hdata, hbatch]

/-- Witness for C1: a shuffle-enabled generator over a two-row file with
batch size 1, after the construction-time epoch end chose the reversing
permutation; batch 0 is the first file row, in file order, even though
row_order is [2, 1]. -/
theorem c1_item_original_file_order_witness :
    getitem (⟨2, [⟨['a'], ['b']⟩, ⟨['c'], ['d']⟩], 1, true,
      RowOrder.pylist [2, 1]⟩ : MultihopQADataGenerator) 0 =
      .ok [(['a'], ['b'])] := by
  have hc : Constructed 2 [⟨['a'], ['b']⟩, ⟨['c'], ['d']⟩] 1 true
      (⟨2, [⟨['a'], ['b']⟩, ⟨['c'], ['d']⟩], 1, true,
        RowOrder.pylist [2, 1]⟩ : MultihopQADataGenerator) :=
    EpochEndStep.shuffleOn _ [2, 1] rfl (by decide)
  have h := (c1_item_original_file_order 2 [⟨['a'], ['b']⟩, ⟨['c'], ['d']⟩] 1 true
    _ _ hc Relation.ReflTransGen.refl 0).1 rfl
  rw [h]
  rfl

/-- Counterexample to C1 as stated: with shuffle disabled (one of the two
permitted values of the flag), a freshly constructed generator over a
32-row file with batch size 16 does not return a batch at the valid index
0 at all — the unused skip expression adds a length-0 numpy slice to a
length-16 one and raises a broadcast ValueError. -/
theorem c1_counterexample :
    getitem (rawGen 32 (List.replicate 32 ⟨['p'], ['t']⟩) 16 false) 0 =
      .error .valueError := rfl

/-- C10: For a generator constructed with shuffle disabled, row_order stays
the initial numpy arange and item(idx) raises the broadcast ValueError at
every batch index where the prefix row_order[:idx*b] and the suffix
row_order[(idx+1)*b:] have different lengths, neither equal to 1; with
shuffle enabled, row_order is a Python list, the slices concatenate, and
item succeeds at every index. -/
theorem c10_shuffle_flag_controls_item (n : Nat) (data : List RowData)
    (b idx : Nat) :
    (∀ g g', Constructed n data b false g → Reaches g g' →
      min (idx * b) n ≠ n - (idx + 1) * b →
      min (idx * b) n ≠ 1 → n - (idx + 1) * b ≠ 1 →
      getitem g' idx = .error .valueError) ∧
    (∀ g g', Constructed n data b true g → Reaches g g' →
      (getitem g' idx).isOk = true) := by
  constructor
  · intro g g' hc hr hne h1 h2
    have hg : g = rawGen n data b false := by
      cases hc with
      | shuffleOn p hsh hp => cases hsh
      | shuffleOff hsh => rfl
    subst hg
    have hg' : g' = rawGen n data b false := reaches_shuffle_false_eq rfl hr
    subst hg'
    have hlt : ((initRowOrder n).take (idx * b)).length = min (idx * b) n := by
      rw [List.length_take, initRowOrder_length]
    have hld : ((initRowOrder n).drop ((idx + 1) * b)).length = n - (idx + 1) * b := by
      rw [List.length_drop, initRowOrder_length]
    simp only [getitem, rawGen, skipExpr, npAdd, hlt, hld]
    rw [if_neg, if_neg, if_neg]
    · exact h2
    · exact h1
    · exact hne
  · intro g g' hc hr
    have hpy := reaches_pylist (constructed_true_pylist hc) hr
    rw [getitem_pylist hpy]
    rfl

/-- Witness for C10: the freshly constructed shuffle-disabled generator on
32 rows with batch size 16 fails at batch index 0 (slice lengths 0 and 16),
while a shuffle-enabled generator on 2 rows with batch size 1 succeeds. -/
theorem c10_shuffle_flag_controls_item_witness :
    getitem (rawGen 32 [] 16 false) 0 = .error .valueError ∧
    (getitem (⟨2, [], 1, true, RowOrder.pylist [2, 1]⟩ :
      MultihopQADataGenerator) 0).isOk = true := by
  constructor
  · exact (c10_shuffle_flag_controls_item 32 [] 16 0).1 _ _
      (EpochEndStep.shuffleOff _ rfl) Relation.ReflTransGen.refl
      (by decide) (by decide) (by decide)
  · exact (c10_shuffle_flag_controls_item 2 [] 1 0).2 _ _
      (EpochEndStep.shuffleOn _ [2, 1] rfl (by decide)) Relation.ReflTransGen.refl

/-! ## Loader and splitter claims -/

/-- C6: For every dataset loader and every parsed example list, if the
example cap N is positive the loader returns exactly the first
min(N, total_examples) records in original file order, and if N <= 0 it
returns the entire parsed list unchanged.  All loaders share the same
truncation, so the property is stated for load_2WikiMultihopQA and the
other fixed-path loaders are shown equal to it. -/
theorem c6_loader_truncation {α : Type} (n_examples : Int) (data : List α) :
    (0 < n_examples →
      load_2WikiMultihopQA data n_examples = data.take n_examples.toNat ∧
      (load_2WikiMultihopQA data n_examples).length =
        min n_examples.toNat data.length ∧
      (∀ i : Nat, i < (load_2WikiMultihopQA data n_examples).length →
        (load_2WikiMultihopQA data n_examples)[i]? = data[i]?)) ∧
    (n_examples ≤ 0 → load_2WikiMultihopQA data n_examples = data) ∧
    load_FinetuningData data n_examples = load_2WikiMultihopQA data n_examples ∧
    load_HotPotQA data n_examples = load_2WikiMultihopQA data n_examples ∧
    load_CompositionalCelebrities data n_examples =
      load_2WikiMultihopQA data n_examples ∧
    load_StrategyQA data n_examples = load_2WikiMultihopQA data n_examples := by
  refine ⟨?_, ?_, rfl, rfl, rfl, rfl⟩
  · intro hpos
    have heq : load_2WikiMultihopQA data n_examples = data.take n_examples.toNat := by
      simp [load_2WikiMultihopQA, truncateExamples, hpos]
    refine ⟨heq, ?_, ?_⟩
    · rw [heq, List.length_take]
    · intro i hi
      rw [heq] at hi ⊢
      rw [List.length_take] at hi
      rw [List.getElem?_take, if_pos]
      omega
  · intro hneg
    simp [load_2WikiMultihopQA, truncateExamples]
    omega

/-- Witness for C6: a cap of 2 on a 3-element list returns the first two
records, and a cap of -1 returns the list unchanged. -/
theorem c6_loader_truncation_witness :
    load_2WikiMultihopQA [10, 20, 30] (2 : Int) = [10, 20] ∧
    load_2WikiMultihopQA [10, 20, 30] (-1 : Int) = [10, 20, 30] := by
  constructor
  · exact ((c6_loader_truncation (2 : Int) [10, 20, 30]).1 (by decide)).1
  · exact (c6_loader_truncation (-1 : Int) [10, 20, 30]).2.1 (by decide)

theorem listComprehensionGet_ok (rs : List JRec) (k : List Char)
    (h : ∀ r ∈ rs, (pyDictGet r k).isSome = true) :
    ∃ vs, listComprehensionGet rs k = .ok vs ∧ vs.length = rs.length ∧
      ∀ (i : Nat) (r : JRec), rs[i]? = some r → vs[i]? = pyDictGet r k := by
  induction rs with
  | nil => exact ⟨[], rfl, rfl, fun i r hir => by cases i <;> cases hir⟩
  | cons r rs ih =>
    have hr := h r (List.mem_cons_self r rs)
    obtain ⟨v, hv⟩ := Option.isSome_iff_exists.mp hr
    obtain ⟨vs, hvs, hlen, hidx⟩ := ih (fun r' hr' => h r' (List.mem_cons_of_mem r hr'))
    refine ⟨v :: vs, ?_, by simp [hlen], ?_⟩
    · simp [listComprehensionGet, hv, hvs]
    · intro i r' hir
      cases i with
      | zero =>
        simp at hir
        subst hir
        simp [hv]
      | succ j =>
        simp at hir ⊢
        exact hidx j r' hir

/-- C7: For every example list in which each record contains the prompt and
target keys, qa_split in pair mode returns two sequences whose lengths both
equal the input length, with the i-th question the i-th record's prompt
value and the i-th answer the i-th record's target value. -/
theorem c7_qa_split_parallel (examples : List JRec)
    (h : ∀ r ∈ examples, (pyDictGet r promptKey).isSome = true ∧
      (pyDictGet r targetKey).isSome = true) :
    ∃ qs ans, qa_split examples false = .ok (QASplitOut.two qs ans) ∧
      qs.length = examples.length ∧ ans.length = examples.length ∧
      ∀ (i : Nat) (r : JRec), examples[i]? = some r →
        qs[i]? = pyDictGet r promptKey ∧ ans[i]? = pyDictGet r targetKey := by
  obtain ⟨qs, hqs, hqlen, hqidx⟩ :=
    listComprehensionGet_ok examples promptKey (fun r hr => (h r hr).1)
  obtain ⟨ans, hans, halen, haidx⟩ :=
    listComprehensionGet_ok examples targetKey (fun r hr => (h r hr).2)
  refine ⟨qs, ans, ?_, hqlen, halen, fun i r hir => ⟨hqidx i r hir, haidx i r hir⟩⟩
  simp [qa_split, hqs, hans]

/-- Witness for C7 on a concrete two-record list. -/
theorem c7_qa_split_parallel_witness :
    ∃ qs ans,
      qa_split [[(promptKey, JVal.jstr ['q']), (targetKey, JVal.jstr ['a'])],
        [(promptKey, JVal.jstr ['r']), (targetKey, JVal.jstr ['b'])]] false =
        .ok (QASplitOut.two qs ans) ∧
      qs.length = 2 ∧ ans.length = 2 ∧
      ∀ (i : Nat) (r : JRec),
        ([[(promptKey, JVal.jstr ['q']), (targetKey, JVal.jstr ['a'])],
          [(promptKey, JVal.jstr ['r']), (targetKey, JVal.jstr ['b'])]] :
            List JRec)[i]? = some r →
        qs[i]? = pyDictGet r promptKey ∧ ans[i]? = pyDictGet r targetKey :=
  c7_qa_split_parallel _ (by decide)

/-! ## filter_token_size and verify_answer_in_prompt claims -/

theorem pyReplaceGoAux_nil (pat repl : List Char) (fuel : Nat) :
    pyReplaceGoAux pat repl fuel [] = [] := by
  cases fuel <;> rfl

theorem pyReplaceGoAux_unique_tail (pat repl : List Char) (hne : pat ≠ []) :
    ∀ (stem : List Char) (fuel : Nat), (stem ++ pat).length ≤ fuel →
      (∀ i : Nat, i < stem.length →
        pat.isPrefixOf ((stem ++ pat).drop i) = false) →
      pyReplaceGoAux pat repl fuel (stem ++ pat) = stem ++ repl := by
  intro stem
  induction stem with
  | nil =>
    intro fuel hfuel _
    have hpre : pat.isPrefixOf pat = true := by
      simp [List.isPrefixOf_iff_prefix]
    have hlen : 0 < pat.length := List.length_pos.mpr hne
    rw [List.nil_append] at hfuel ⊢
    cases fuel with
    | zero => omega
    | succ f =>
      cases hp : pat with
      | nil => exact absurd hp hne
      | cons c cs =>
        rw [hp] at hpre
        rw [pyReplaceGoAux, if_pos ⟨hpre, by rw [hp] at hne; exact hne⟩]
        rw [List.drop_length, pyReplaceGoAux_nil, List.append_nil]
        rfl
  | cons c cs ih =>
    intro fuel hfuel h
    have h0 := h 0 (by simp)
    rw [List.drop_zero] at h0
    cases fuel with
    | zero => simp at hfuel
    | succ f =>
      rw [List.cons_append, pyReplaceGoAux, if_neg]
      · rw [ih f (by simp at hfuel ⊢; omega)]
        · rfl
        · intro i hi
          have := h (i + 1) (by simpa using Nat.succ_lt_succ hi)
          simpa using this
      · intro hcon
        rw [List.cons_append] at h0
        rw [hcon.1] at h0
        cases h0

theorem filterNewName_single_ext (stem : List Char) (t : Int)
    (h : ∀ i : Nat, i < stem.length →
      jsonExt.isPrefixOf ((stem ++ jsonExt).drop i) = false) :
    filterNewName (stem ++ jsonExt) t = stem ++ '_' :: intDump t ++ jsonExt := by
  have hne : jsonExt ≠ [] := by decide
  rw [filterNewName, pyReplace, if_neg hne, pyReplaceGo,
    pyReplaceGoAux_unique_tail _ _ hne stem _ le_rfl h, List.append_nil]

theorem filterTokenRecords_ok (t : Int) :
    ∀ rs : List JRec, (∀ r ∈ rs, hasIntNumTokens r = true) →
      filterTokenRecords rs t = .ok (rs.filter (fun r => keepTok r t)) := by
  intro rs
  induction rs with
  | nil => intro _; rfl
  | cons r rs ih =>
    intro h
    have hr := h r (List.mem_cons_self r rs)
    rw [hasIntNumTokens] at hr
    have hrest := ih (fun r' hr' => h r' (List.mem_cons_of_mem r hr'))
    cases hg : pyDictGet r numPromptTokensKey with
    | none => rw [hg] at hr; cases hr
    | some v =>
      cases v with
      | jstr s => rw [hg] at hr; cases hr
      | jint m =>
        by_cases hle : m ≤ t
        · rw [List.filter_cons_of_pos (by simp [keepTok, hg, hle])]
          simp [filterTokenRecords, hg, hrest, hle]
        · rw [List.filter_cons_of_neg (by simp [keepTok, hg, hle])]
          simp [filterTokenRecords, hg, hrest, hle]

/-- C5 (amended): For train and valid files whose names contain .json only
as their final extension, and whose records all carry an integer
num_prompt_tokens field, filter_token_size keeps exactly the records whose
num_prompt_tokens is at most the threshold, preserving their order (the
retained list is the order-preserving filter of the input), and writes each
retained subset to the file named stem_<threshold>.json; on the concrete
input [num_prompt_tokens 10, num_prompt_tokens 999] with threshold 100 it
retains only the first record.  (The source derives the name with
str.replace of every .json occurrence, so for a name with further .json
occurrences the written name differs from inserting _<threshold> before the
extension.) -/
theorem c5_filter_token_size (trainStem validStem : List Char)
    (js_train js_valid : List JRec) (t : Int)
    (htr : ∀ i : Nat, i < trainStem.length →
      jsonExt.isPrefixOf ((trainStem ++ jsonExt).drop i) = false)
    (hva : ∀ i : Nat, i < validStem.length →
      jsonExt.isPrefixOf ((validStem ++ jsonExt).drop i) = false)
    (hjt : ∀ r ∈ js_train, hasIntNumTokens r = true)
    (hjv : ∀ r ∈ js_valid, hasIntNumTokens r = true) :
    filter_token_size (trainStem ++ jsonExt) (validStem ++ jsonExt)
        js_train js_valid t =
      .ok [(trainStem ++ '_' :: intDump t ++ jsonExt,
            dumpFile (js_train.filter (fun r => keepTok r t))),
           (validStem ++ '_' :: intDump t ++ jsonExt,
            dumpFile (js_valid.filter (fun r => keepTok r t)))] ∧
    filterTokenRecords [[(numPromptTokensKey, JVal.jint 10)],
        [(numPromptTokensKey, JVal.jint 999)]] 100 =
      .ok [[(numPromptTokensKey, JVal.jint 10)]] := by
  constructor
  · rw [filter_token_size, filterTokenRecords_ok t js_train hjt,
      filterTokenRecords_ok t js_valid hjv,
      filterNewName_single_ext trainStem t htr,
      filterNewName_single_ext validStem t hva]
  · rfl

/-- Witness for C5 on concrete files train.json and valid.json with the
spec's two-record input and threshold 100. -/
theorem c5_filter_token_size_witness :
    filter_token_size ("train".toList ++ jsonExt) ("valid".toList ++ jsonExt)
        [[(numPromptTokensKey, JVal.jint 10)], [(numPromptTokensKey, JVal.jint 999)]]
        [] 100 =
      .ok [("train".toList ++ '_' :: intDump 100 ++ jsonExt,
            dumpFile [[(numPromptTokensKey, JVal.jint 10)]]),
           ("valid".toList ++ '_' :: intDump 100 ++ jsonExt, dumpFile [])] := by
  have h := (c5_filter_token_size "train".toList "valid".toList
    [[(numPromptTokensKey, JVal.jint 10)], [(numPromptTokensKey, JVal.jint 999)]]
    [] 100 (by decide) (by decide) (by decide) (by decide)).1
  rw [h]
  rfl

/-- Counterexample to C5 as stated: for the train file a.json.json, the
claimed naming rule (insert _100 before the .json extension) gives
a.json_100.json, but the code removes every .json occurrence first and
writes a_100.json instead. -/
theorem c5_counterexample :
    filter_token_size "a.json.json".toList "v.json".toList [] [] 100 =
      .ok [("a_100.json".toList, dumpFile []), ("v_100.json".toList, dumpFile [])] ∧
    "a_100.json".toList ≠ "a.json_100.json".toList := by
  exact ⟨rfl, by decide⟩

/-- C2 (the code bug exhibited): on any pair of files — here train.json and
valid.json, each holding one example whose extracted answer Paris does occur
in its prompt — verify_answer_in_prompt never reaches its write: after
filtering it evaluates file.replace(".json", "") on the closed file handle
the loop variable was rebound to, raising AttributeError, so no
answer-verified file is written. -/
theorem c2_verify_never_writes :
    verify_answer_in_prompt "train.json".toList "valid.json".toList
      [[(promptKey, JVal.jstr "Paris is big".toList),
        (targetKey, JVal.jstr "The answer is Paris.".toList)]]
      [[(promptKey, JVal.jstr "Paris is big".toList),
        (targetKey, JVal.jstr "The answer is Paris.".toList)]] =
      ([], some PyError.attributeError) := rfl

theorem verifyProcessFile_always_fails (path : List Char) (contents : List JRec) :
    ∃ e, verifyProcessFile path contents = .error e := by
  rw [verifyProcessFile]
  cases hf : verifyFilterRecords contents with
  | error e => exact ⟨e, rfl⟩
  | ok filtered => exact ⟨.attributeError, rfl⟩

/-- C9: If any example in either file given to verify_answer_in_prompt has
a target in which the answer pattern does not occur, the call raises an
exception and writes no output file.  (When the offending example is in the
train file the filtering loop itself raises the TypeError of the membership
test None in prompt; the call in fact never writes a file on any input,
because the name derivation of C2 raises AttributeError even when every
target matches.) -/
theorem c9_verify_requires_matching_targets (train_file valid_file : List Char)
    (js_train js_valid : List JRec)
    (h : ∃ r ∈ js_train ++ js_valid, ∃ t : List Char,
      pyDictGet r targetKey = some (JVal.jstr t) ∧ extractedChars t = none) :
    (verify_answer_in_prompt train_file valid_file js_train js_valid).1 = [] ∧
    (verify_answer_in_prompt train_file valid_file js_train js_valid).2.isSome
      = true := by
  obtain ⟨e, he⟩ := verifyProcessFile_always_fails train_file js_train
  rw [verify_answer_in_prompt, verifyLoop, he]
  exact ⟨rfl, rfl⟩

/-- Witness for C9: a train file holding one example whose target No answer
here does not contain the pattern; the call errors and writes nothing. -/
theorem c9_verify_requires_matching_targets_witness :
    (verify_answer_in_prompt "t.json".toList "v.json".toList
      [[(targetKey, JVal.jstr "No answer here".toList)]] []).1 = [] ∧
    (verify_answer_in_prompt "t.json".toList "v.json".toList
      [[(targetKey, JVal.jstr "No answer here".toList)]] []).2.isSome = true := by
  refine c9_verify_requires_matching_targets _ _ _ _
    ⟨[(targetKey, JVal.jstr "No answer here".toList)], by decide,
      "No answer here".toList, rfl, rfl⟩

/-! ## Lemmas about the regex model -/

theorem takeWhile_ne_nil_head {p : Char → Bool} {l : List Char}
    (h : l.takeWhile p ≠ []) : ∃ c t, l = c :: t ∧ p c = true := by
  cases l with
  | nil => exact absurd rfl h
  | cons c t =>
    by_cases hp : p c = true
    · exact ⟨c, t, rfl, hp⟩
    · rw [List.takeWhile_cons_of_neg hp] at h
      exact absurd rfl h

theorem takeWhile_nodot_append (w x : List Char) (h : ∀ c ∈ w, c ≠ '.') :
    (w ++ '.' :: x).takeWhile (fun c => c ≠ '.') = w := by
  induction w with
  | nil =>
    rw [List.nil_append, List.takeWhile_cons_of_neg]
    simp
  | cons c cs ih =>
    rw [List.cons_append, List.takeWhile_cons_of_pos (by
      simpa using h c (List.mem_cons_self c cs))]
    rw [ih (fun c' hc' => h c' (List.mem_cons_of_mem c hc'))]

theorem tryCapture_zero_of_decomp (w x : List Char) (hw : w ≠ [])
    (hnd : ∀ c ∈ w, c ≠ '.') :
    tryCapture (w ++ '.' :: x) 0 = some w := by
  rw [tryCapture]
  simp only [List.drop_zero, takeWhile_nodot_append w x hnd]
  rw [if_pos]
  refine ⟨hw, ?_⟩
  rw [List.drop_left]
  rfl

theorem matchLoop_some_of_zero {rest : List Char} {w : List Char}
    (h : tryCapture rest 0 = some w) :
    ∀ u, ∃ v, matchLoop rest u = some v := by
  intro u
  induction u with
  | zero => exact ⟨w, h⟩
  | succ u ih =>
    cases ht : tryCapture rest (u + 1) with
    | some v => exact ⟨v, by rw [matchLoop, ht]⟩
    | none =>
      obtain ⟨v, hv⟩ := ih
      exact ⟨v, by rw [matchLoop, ht, hv]⟩

theorem matchLoop_some_elim {rest : List Char} {v : List Char} :
    ∀ u, matchLoop rest u = some v → ∃ j, j ≤ u ∧ tryCapture rest j = some v := by
  intro u
  induction u with
  | zero => exact fun h => ⟨0, le_rfl, h⟩
  | succ u ih =>
    intro h
    rw [matchLoop] at h
    cases ht : tryCapture rest (u + 1) with
    | some w =>
      rw [ht] at h
      cases h
      exact ⟨u + 1, le_rfl, ht⟩
    | none =>
      rw [ht] at h
      obtain ⟨j, hj, hcap⟩ := ih h
      exact ⟨j, Nat.le_succ_of_le hj, hcap⟩

theorem tryCapture_some_props {rest : List Char} {j : Nat} {v : List Char}
    (h : tryCapture rest j = some v) :
    '.' ∈ rest ∧ (j = 0 → rest.head? ≠ some '.') := by
  rw [tryCapture] at h
  split at h
  · rename_i hcond
    cases h
    constructor
    · have hmem : '.' ∈ (rest.drop j).drop
          ((rest.drop j).takeWhile (fun c => c ≠ '.')).length := by
        cases hh : ((rest.drop j).drop
            ((rest.drop j).takeWhile (fun c => c ≠ '.')).length).head? with
        | none => rw [hh] at hcond; cases hcond.2
        | some c =>
          rw [hh] at hcond
          cases hcond.2
          cases hl : (rest.drop j).drop
              ((rest.drop j).takeWhile (fun c => c ≠ '.')).length with
          | nil => rw [hl] at hh; cases hh
          | cons c' t =>
            rw [hl] at hh
            cases hh
            exact List.mem_cons_self _ _
      exact List.drop_subset _ _ (List.drop_subset _ _ hmem)
    · intro hj hhead
      subst hj
      rw [List.drop_zero] at hcond
      obtain ⟨c, t, hct, hp⟩ := takeWhile_ne_nil_head hcond.1
      rw [hct] at hhead
      simp at hhead
      subst hhead
      simp at hp
  · cases h

theorem pyIsSpace_ne_dot {c : Char} (h : pyIsSpace c = true) : c ≠ '.' := by
  intro he
  subst he
  simp [pyIsSpace] at h

theorem matchTail_some_head {rest : List Char} {v : List Char}
    (h : matchTail rest = some v) : '.' ∈ rest ∧ rest.head? ≠ some '.' := by
  rw [matchTail] at h
  obtain ⟨j, hj, hcap⟩ := matchLoop_some_elim _ h
  have hp := tryCapture_some_props hcap
  refine ⟨hp.1, ?_⟩
  cases hjz : j with
  | zero =>
    subst hjz
    exact hp.2 rfl
  | succ j' =>
    subst hjz
    have hw : (rest.takeWhile pyIsSpace) ≠ [] := by
      intro hnil
      rw [hnil] at hj
      simp at hj
    obtain ⟨c, t, hct, hpc⟩ := takeWhile_ne_nil_head hw
    rw [hct]
    intro hcon
    simp at hcon
    subst hcon
    exact pyIsSpace_ne_dot hpc rfl

theorem first_dot_decomp : ∀ l : List Char, '.' ∈ l →
    ∃ w x, l = w ++ '.' :: x ∧ '.' ∉ w := by
  intro l
  induction l with
  | nil => intro h; cases h
  | cons c cs ih =>
    intro h
    by_cases hc : c = '.'
    · subst hc
      exact ⟨[], cs, rfl, by simp⟩
    · have hmem : '.' ∈ cs := by
        cases List.mem_cons.mp h with
        | inl he => exact absurd he.symm hc
        | inr hm => exact hm
      obtain ⟨w, x, hwx, hnw⟩ := ih hmem
      exact ⟨c :: w, x, by rw [hwx, List.cons_append], by
        simp [List.mem_cons]
        exact ⟨fun he => hc he.symm, hnw⟩⟩

theorem matchTail_some_of_head {rest : List Char}
    (hdot : '.' ∈ rest) (hhead : rest.head? ≠ some '.') :
    ∃ v, matchTail rest = some v := by
  obtain ⟨w, x, hwx, hnw⟩ := first_dot_decomp rest hdot
  have hw : w ≠ [] := by
    intro hnil
    rw [hnil, List.nil_append] at hwx
    rw [hwx] at hhead
    exact hhead rfl
  have hcap : tryCapture rest 0 = some w := by
    rw [hwx]
    exact tryCapture_zero_of_decomp w x hw (fun c hc => by
      intro he
      subst he
      exact hnw hc)
  exact matchLoop_some_of_zero hcap _

theorem answerIsLit_eq :
    answerIsLit = 'a' :: 'n' :: 's' :: 'w' :: 'e' :: 'r' :: ' ' :: 'i' :: 's' :: [] :=
  rfl

theorem searchAnswer_cons_pos {c : Char} {cs : List Char}
    (hp : answerIsLit.isPrefixOf (c :: cs) = true) :
    searchAnswer (c :: cs) =
      match matchTail ((c :: cs).drop answerIsLit.length) with
      | some v => some v
      | none => searchAnswer cs := by
  rw [searchAnswer, if_pos hp]

theorem searchAnswer_cons_neg {c : Char} {cs : List Char}
    (hp : ¬answerIsLit.isPrefixOf (c :: cs) = true) :
    searchAnswer (c :: cs) = searchAnswer cs := by
  rw [searchAnswer, if_neg hp]

theorem searchAnswer_some_of : ∀ pre rest : List Char, '.' ∈ rest →
    rest.head? ≠ some '.' →
    ∃ v, searchAnswer (pre ++ answerIsLit ++ rest) = some v := by
  intro pre
  induction pre with
  | nil =>
    intro rest hdot hhead
    obtain ⟨v, hv⟩ := matchTail_some_of_head hdot hhead
    refine ⟨v, ?_⟩
    rw [List.nil_append, answerIsLit_eq]
    simp only [List.cons_append, List.nil_append]
    have hpre : answerIsLit.isPrefixOf
        ('a' :: 'n' :: 's' :: 'w' :: 'e' :: 'r' :: ' ' :: 'i' :: 's' :: rest) = true := by
      rw [answerIsLit_eq]
      simp [List.isPrefixOf]
    rw [searchAnswer_cons_pos hpre]
    have hdrop : ('a' :: 'n' :: 's' :: 'w' :: 'e' :: 'r' :: ' ' :: 'i' :: 's' ::
        rest).drop answerIsLit.length = rest := rfl
    rw [hdrop, hv]
  | cons c pre' ih =>
    intro rest hdot hhead
    obtain ⟨v, hv⟩ := ih rest hdot hhead
    rw [List.cons_append, List.cons_append]
    by_cases hp : answerIsLit.isPrefixOf (c :: (pre' ++ answerIsLit ++ rest)) = true
    · rw [searchAnswer_cons_pos hp]
      cases hmt : matchTail ((c :: (pre' ++ answerIsLit ++ rest)).drop
          answerIsLit.length) with
      | some w => exact ⟨w, rfl⟩
      | none =>
        refine ⟨v, ?_⟩
        simpa using hv
    · rw [searchAnswer_cons_neg hp]
      exact ⟨v, by simpa using hv⟩

theorem searchAnswer_some_elim : ∀ t v : List Char, searchAnswer t = some v →
    ∃ pre rest, t = pre ++ answerIsLit ++ rest ∧ '.' ∈ rest ∧
      rest.head? ≠ some '.' := by
  intro t
  induction t with
  | nil => intro v h; cases h
  | cons c cs ih =>
    intro v h
    by_cases hp : answerIsLit.isPrefixOf (c :: cs) = true
    · rw [searchAnswer_cons_pos hp] at h
      cases hmt : matchTail ((c :: cs).drop answerIsLit.length) with
      | some w =>
        obtain ⟨rest0, hr0⟩ := List.isPrefixOf_iff_prefix.mp hp
        have hdrop : (c :: cs).drop answerIsLit.length = rest0 := by
          rw [← hr0, List.drop_left]
        rw [hdrop] at hmt
        have hm := matchTail_some_head hmt
        exact ⟨[], rest0, by rw [List.nil_append, hr0], hm.1, hm.2⟩
      | none =>
        rw [hmt] at h
        obtain ⟨pre, rest, hsplit, hdot, hhead⟩ := ih v h
        exact ⟨c :: pre, rest, by rw [hsplit]; simp [List.append_assoc], hdot, hhead⟩
    · rw [searchAnswer_cons_neg hp] at h
      obtain ⟨pre, rest, hsplit, hdot, hhead⟩ := ih v h
      exact ⟨c :: pre, rest, by rw [hsplit]; simp [List.append_assoc], hdot, hhead⟩

theorem rest_form_iff (rest : List Char) :
    ('.' ∈ rest ∧ rest.head? ≠ some '.') ↔
      ∃ u v post, rest = u ++ v ++ '.' :: post ∧
        (∀ c ∈ u, pyIsSpace c = true) ∧ v ≠ [] ∧ '.' ∉ v := by
  constructor
  · intro ⟨hdot, hhead⟩
    obtain ⟨w, x, hwx, hnw⟩ := first_dot_decomp rest hdot
    have hw : w ≠ [] := by
      intro hnil
      rw [hnil, List.nil_append] at hwx
      rw [hwx] at hhead
      exact hhead rfl
    exact ⟨[], w, x, by rw [hwx, List.nil_append], by simp, hw, hnw⟩
  · intro ⟨u, v, post, hsplit, hws, hv, hnv⟩
    subst hsplit
    constructor
    · simp
    · cases u with
      | nil =>
        cases v with
        | nil => exact absurd rfl hv
        | cons cv tv =>
          simp only [List.nil_append, List.cons_append, List.head?_cons]
          intro hcon
          simp at hcon
          subst hcon
          exact hnv (List.mem_cons_self _ _)
      | cons cu tu =>
        simp only [List.cons_append, List.head?_cons]
        intro hcon
        simp at hcon
        subst hcon
        exact pyIsSpace_ne_dot (hws '.' (List.mem_cons_self _ _)) rfl

theorem searchAnswer_isSome_iff (t : List Char) :
    (searchAnswer t).isSome = true ↔ PatternOccurs t := by
  constructor
  · intro h
    obtain ⟨v, hv⟩ := Option.isSome_iff_exists.mp h
    obtain ⟨pre, rest, hsplit, hdot, hhead⟩ := searchAnswer_some_elim t v hv
    obtain ⟨u, w, post, hrest, hws, hw, hnw⟩ := (rest_form_iff rest).mp ⟨hdot, hhead⟩
    refine ⟨pre, u, w, post, ?_, hws, hw, hnw⟩
    rw [hsplit, hrest]
    simp [List.append_assoc]
  · intro ⟨pre, u, v, post, hsplit, hws, hv, hnv⟩
    have hrest := (rest_form_iff (u ++ v ++ '.' :: post)).mpr
      ⟨u, v, post, rfl, hws, hv, hnv⟩
    obtain ⟨w, hw⟩ := searchAnswer_some_of pre (u ++ v ++ '.' :: post)
      hrest.1 hrest.2
    have : t = pre ++ answerIsLit ++ (u ++ v ++ '.' :: post) := by
      rw [hsplit]
      simp [List.append_assoc]
    rw [this, hw]
    rfl

/-! ## Strippedness of the extracted answer -/

theorem dropWhile_nofirst {p : Char → Bool} : ∀ l : List Char, ∀ c : Char,
    (l.dropWhile p).head? = some c → p c = false := by
  intro l
  induction l with
  | nil => intro c h; cases h
  | cons a l ih =>
    intro c h
    by_cases hp : p a = true
    · rw [List.dropWhile_cons_of_pos hp] at h
      exact ih c h
    · rw [List.dropWhile_cons_of_neg hp] at h
      simp at h
      subst h
      exact Bool.not_eq_true _ |>.mp hp

theorem dropWhile_getLast? {p : Char → Bool} : ∀ l : List Char,
    l.dropWhile p ≠ [] → (l.dropWhile p).getLast? = l.getLast? := by
  intro l
  induction l with
  | nil => intro h; exact absurd rfl h
  | cons a l ih =>
    intro h
    by_cases hp : p a = true
    · rw [List.dropWhile_cons_of_pos hp] at h ⊢
      rw [ih h]
      have hl : l ≠ [] := by
        intro hnil
        rw [hnil] at h
        exact h rfl
      cases hl' : l with
      | nil => exact absurd hl' hl
      | cons b m =>
        rw [← hl']
        rw [show (a :: l).getLast? = l.getLast?.or [a].getLast? from
          @List.getLast?_append _ [a] l]
        rw [hl']
        rfl
    · rw [List.dropWhile_cons_of_neg hp]

theorem pyStrip_head {v : List Char} {c : Char}
    (h : (pyStrip v).head? = some c) : pyIsSpace c = false := by
  rw [pyStrip, List.head?_reverse] at h
  have hne : (v.dropWhile pyIsSpace).reverse.dropWhile pyIsSpace ≠ [] := by
    intro hnil
    rw [hnil] at h
    cases h
  rw [dropWhile_getLast? _ hne, List.getLast?_reverse] at h
  exact dropWhile_nofirst v c h

theorem pyStrip_getLast {v : List Char} {c : Char}
    (h : (pyStrip v).getLast? = some c) : pyIsSpace c = false := by
  rw [pyStrip, List.getLast?_reverse] at h
  exact dropWhile_nofirst _ c h

/-- C3: For every target string, extract_answer_from_target returns a
result exactly when the pattern answer-is-text-dot occurs in the target
(and raises nothing either way); the returned text has no leading or
trailing whitespace; and on the two spec examples it returns Paris for
The answer is Paris. and null for No answer here. -/
theorem c3_extract_answer_from_target (target : String) :
    ((extract_answer_from_target target).isSome = true ↔
      PatternOccurs target.toList) ∧
    (∀ s : String, extract_answer_from_target target = some s →
      (∀ c, s.toList.head? = some c → pyIsSpace c = false) ∧
      (∀ c, s.toList.getLast? = some c → pyIsSpace c = false)) ∧
    extract_answer_from_target "The answer is Paris." = some "Paris" ∧
    extract_answer_from_target "No answer here" = none := by
  refine ⟨?_, ?_, rfl, rfl⟩
  · have hmap : (extract_answer_from_target target).isSome =
        (searchAnswer target.toList).isSome := by
      rw [extract_answer_from_target]
      cases searchAnswer target.toList <;> rfl
    rw [hmap]
    exact searchAnswer_isSome_iff target.toList
  · intro s hs
    rw [extract_answer_from_target] at hs
    cases hsa : searchAnswer target.toList with
    | none => rw [hsa] at hs; cases hs
    | some v =>
      rw [hsa] at hs
      have hs' : some ((pyStrip v).asString) = some s := hs
      have hlist : s.toList = pyStrip v := by
        cases hs'
        rfl
      rw [hlist]
      exact ⟨fun c hc => pyStrip_head hc, fun c hc => pyStrip_getLast hc⟩

/-- Witness for C3 at the spec example: the pattern occurs in The answer is
Paris., and the returned answer Paris is whitespace-free at both ends. -/
theorem c3_extract_answer_from_target_witness :
    PatternOccurs "The answer is Paris.".toList ∧
    (∀ c, "Paris".toList.head? = some c → pyIsSpace c = false) := by
  constructor
  · exact (c3_extract_answer_from_target "The answer is Paris.").1.mp rfl
  · exact ((c3_extract_answer_from_target "The answer is Paris.").2.1 "Paris"
      rfl).1

/-! ## Round trip of json.dumps and json.load: numeric lemmas -/

theorem toNat_ofNat_small {n : Nat} (h : n < 0xd800) : (Char.ofNat n).toNat = n := by
  have hv : n.isValidChar := Or.inl h
  simp [Char.ofNat, Char.ofNatAux, Char.toNat, hv]
  rfl

theorem char_valid_cases (c : Char) :
    c.toNat < 0xd800 ∨ (0xdfff < c.toNat ∧ c.toNat < 0x110000) := by
  rcases c.valid with h | ⟨h1, h2⟩
  · exact Or.inl h
  · exact Or.inr ⟨h1, h2⟩

theorem natDumpAux_digits : ∀ fuel n : Nat, ∀ c ∈ natDumpAux fuel n,
    isDigitCh c = true := by
  intro fuel
  induction fuel with
  | zero => intro n c hc; cases hc
  | succ f ih =>
    intro n c hc
    rw [natDumpAux] at hc
    by_cases hn : n = 0
    · rw [if_pos hn] at hc; cases hc
    · rw [if_neg hn] at hc
      rcases List.mem_append.mp hc with hm | hm
      · exact ih _ c hm
      · have hceq : c = Char.ofNat (48 + n % 10) := by simpa using hm
        subst hceq
        have h10 : n % 10 < 10 := Nat.mod_lt _ (by omega)
        have ht := @toNat_ofNat_small (48 + n % 10) (by omega)
        simp [isDigitCh, ht]
        omega

theorem natDumpAux_foldl : ∀ fuel n acc : Nat, n ≤ fuel →
    (natDumpAux fuel n).foldl (fun a c => a * 10 + digitVal c) acc =
      acc * 10 ^ (natDumpAux fuel n).length + n := by
  intro fuel
  induction fuel with
  | zero =>
    intro n acc h
    have hn : n = 0 := by omega
    subst hn
    simp [natDumpAux]
  | succ f ih =>
    intro n acc h
    rw [natDumpAux]
    by_cases hn : n = 0
    · rw [if_pos hn]
      subst hn
      simp
    · rw [if_neg hn]
      rw [List.foldl_append]
      have hle : n / 10 ≤ f := by omega
      rw [ih (n / 10) acc hle]
      have hd : digitVal (Char.ofNat (48 + n % 10)) = n % 10 := by
        have ht := @toNat_ofNat_small (48 + n % 10) (by omega)
        rw [digitVal, ht]
        omega
      simp only [List.foldl_cons, List.foldl_nil, List.length_append,
        List.length_cons, List.length_nil, hd]
      rw [pow_succ, ← Nat.mul_assoc]
      generalize acc * 10 ^ (natDumpAux f (n / 10)).length = A
      omega

theorem natDump_val (n : Nat) : digitsToNat (natDump n) = n := by
  rw [natDump]
  by_cases hn : n = 0
  · rw [if_pos hn]
    subst hn
    rfl
  · rw [if_neg hn, digitsToNat, natDumpAux_foldl n n 0 le_rfl]
    simp

theorem natDump_digits (n : Nat) : ∀ c ∈ natDump n, isDigitCh c = true := by
  rw [natDump]
  by_cases hn : n = 0
  · rw [if_pos hn]
    intro c hc
    simp at hc
    subst hc
    rfl
  · rw [if_neg hn]
    exact natDumpAux_digits n n

theorem natDump_ne_nil (n : Nat) : natDump n ≠ [] := by
  rw [natDump]
  by_cases hn : n = 0
  · rw [if_pos hn]
    simp
  · rw [if_neg hn]
    cases n with
    | zero => exact absurd rfl hn
    | succ f =>
      rw [natDumpAux, if_neg hn]
      simp

theorem takeWhile_all_append {p : Char → Bool} : ∀ l rest : List Char,
    (∀ c ∈ l, p c = true) → (∀ c, rest.head? = some c → p c = false) →
    (l ++ rest).takeWhile p = l := by
  intro l
  induction l with
  | nil =>
    intro rest _ hr
    cases rest with
    | nil => rfl
    | cons c t =>
      rw [List.nil_append, List.takeWhile_cons_of_neg]
      rw [hr c rfl]
      simp
  | cons a l ih =>
    intro rest hl hr
    rw [List.cons_append,
      List.takeWhile_cons_of_pos (hl a (List.mem_cons_self a l)),
      ih rest (fun c hc => hl c (List.mem_cons_of_mem a hc)) hr]

theorem isDigitCh_not_special {c : Char} (h : isDigitCh c = true) :
    isJsonWs c = false ∧ c ≠ '[' ∧ c ≠ ']' ∧ c ≠ '{' ∧ c ≠ '}' ∧
    c ≠ ',' ∧ c ≠ ':' ∧ c ≠ '"' ∧ c ≠ '-' := by
  simp [isDigitCh] at h
  refine ⟨?_, ?_, ?_, ?_, ?_, ?_, ?_, ?_, ?_⟩
  · cases hw : isJsonWs c with
    | false => rfl
    | true =>
      simp [isJsonWs] at hw
      rcases hw with ((rfl | rfl) | rfl) | rfl <;> simp at h
  all_goals (rintro rfl; simp at h)

theorem hexVal_hexDigitChar : ∀ d : Nat, d < 16 → hexVal (hexDigitChar d) = some d := by
  decide

theorem lexEscape_u_bmp (m : Nat) (t : List Char) (hlt : m < 0x10000)
    (hval : m < 0xd800 ∨ 0xdfff < m) :
    lexEscape ('u' :: (hex4 m ++ t)) = some (Char.ofNat m, 6) := by
  rw [hex4]
  simp only [List.cons_append, List.nil_append]
  unfold lexEscape
  dsimp only
  rw [if_neg (by decide), if_neg (by decide), if_neg (by decide),
    if_neg (by decide), if_neg (by decide), if_neg (by decide),
    if_neg (by decide), if_neg (by decide), if_pos rfl]
  rw [hexVal_hexDigitChar _ (Nat.mod_lt _ (by omega)),
    hexVal_hexDigitChar _ (Nat.mod_lt _ (by omega)),
    hexVal_hexDigitChar _ (Nat.mod_lt _ (by omega)),
    hexVal_hexDigitChar _ (Nat.mod_lt _ (by omega))]
  dsimp only
  have hn : m / 4096 % 16 * 4096 + m / 256 % 16 * 256 + m / 16 % 16 * 16 + m % 16
      = m := by omega
  rw [hn, if_pos hval]

theorem lexEscape_u_pair (hi lo : Nat) (t : List Char)
    (hhi1 : 0xd800 ≤ hi) (hhi2 : hi ≤ 0xdbff)
    (hlo1 : 0xdc00 ≤ lo) (hlo2 : lo ≤ 0xdfff) :
    lexEscape ('u' :: (hex4 hi ++ ('\\' :: ('u' :: (hex4 lo ++ t))))) =
      some (Char.ofNat (0x10000 + (hi - 0xd800) * 0x400 + (lo - 0xdc00)), 12) := by
  rw [hex4, hex4]
  simp only [List.cons_append, List.nil_append]
  unfold lexEscape
  dsimp only
  rw [if_neg (by decide), if_neg (by decide), if_neg (by decide),
    if_neg (by decide), if_neg (by decide), if_neg (by decide),
    if_neg (by decide), if_neg (by decide), if_pos rfl]
  rw [hexVal_hexDigitChar _ (Nat.mod_lt _ (by omega)),
    hexVal_hexDigitChar _ (Nat.mod_lt _ (by omega)),
    hexVal_hexDigitChar _ (Nat.mod_lt _ (by omega)),
    hexVal_hexDigitChar _ (Nat.mod_lt _ (by omega))]
  dsimp only
  have hn : hi / 4096 % 16 * 4096 + hi / 256 % 16 * 256 + hi / 16 % 16 * 16 +
      hi % 16 = hi := by omega
  rw [hn, if_neg (by omega), if_pos (by omega),
    if_pos (show ('\\' : Char) = '\\' ∧ ('u' : Char) = 'u' from ⟨rfl, rfl⟩)]
  rw [hexVal_hexDigitChar _ (Nat.mod_lt _ (by omega)),
    hexVal_hexDigitChar _ (Nat.mod_lt _ (by omega)),
    hexVal_hexDigitChar _ (Nat.mod_lt _ (by omega)),
    hexVal_hexDigitChar _ (Nat.mod_lt _ (by omega))]
  dsimp only
  have hm : lo / 4096 % 16 * 4096 + lo / 256 % 16 * 256 + lo / 16 % 16 * 16 +
      lo % 16 = lo := by omega
  rw [hm, if_pos (⟨by omega, by omega⟩ : 0xdc00 ≤ lo ∧ lo ≤ 0xdfff)]

theorem lexString_quote (t : List Char) : lexString ('"' :: t) = some ([], 1) := by
  rw [lexString, if_pos rfl]

theorem lexString_esc {r : List Char} {ch : Char} {k : Nat}
    (h : lexEscape r = some (ch, k)) :
    lexString ('\\' :: r) = consChar ch k (lexString (r.drop (k - 1))) := by
  rw [lexString, if_neg (by decide), if_pos rfl, h]

theorem lexString_plain {c : Char} (t : List Char) (h1 : c ≠ '"') (h2 : c ≠ '\\')
    (h3 : 0x20 ≤ c.toNat) :
    lexString (c :: t) = consChar c 1 (lexString t) := by
  rw [lexString, if_neg h1, if_neg h2, if_neg (by omega)]

theorem lexString_escapeChar (c : Char) (t : List Char) :
    lexString (escapeChar c ++ t) = consChar c (escapeChar c).length (lexString t) := by
  by_cases h1 : c = '"'
  · subst h1
    rw [show escapeChar '"' = ['\\', '"'] from rfl]
    simp only [List.cons_append, List.nil_append]
    rw [lexString_esc (show lexEscape ('"' :: t) = some ('"', 2) by simp [lexEscape])]
    rfl
  by_cases h2 : c = '\\'
  · subst h2
    rw [show escapeChar '\\' = ['\\', '\\'] from rfl]
    simp only [List.cons_append, List.nil_append]
    rw [lexString_esc (show lexEscape ('\\' :: t) = some ('\\', 2) by simp [lexEscape])]
    rfl
  by_cases h3 : c = '\n'
  · subst h3
    rw [show escapeChar '\n' = ['\\', 'n'] from rfl]
    simp only [List.cons_append, List.nil_append]
    rw [lexString_esc (show lexEscape ('n' :: t) = some ('\n', 2) by simp [lexEscape])]
    rfl
  by_cases h4 : c = '\t'
  · subst h4
    rw [show escapeChar '\t' = ['\\', 't'] from rfl]
    simp only [List.cons_append, List.nil_append]
    rw [lexString_esc (show lexEscape ('t' :: t) = some ('\t', 2) by simp [lexEscape])]
    rfl
  by_cases h5 : c = '\r'
  · subst h5
    rw [show escapeChar '\r' = ['\\', 'r'] from rfl]
    simp only [List.cons_append, List.nil_append]
    rw [lexString_esc (show lexEscape ('r' :: t) = some ('\r', 2) by simp [lexEscape])]
    rfl
  by_cases h6 : c = '\x08'
  · subst h6
    rw [show escapeChar '\x08' = ['\\', 'b'] from rfl]
    simp only [List.cons_append, List.nil_append]
    rw [lexString_esc (show lexEscape ('b' :: t) = some ('\x08', 2) by simp [lexEscape])]
    rfl
  by_cases h7 : c = '\x0c'
  · subst h7
    rw [show escapeChar '\x0c' = ['\\', 'f'] from rfl]
    simp only [List.cons_append, List.nil_append]
    rw [lexString_esc (show lexEscape ('f' :: t) = some ('\x0c', 2) by simp [lexEscape])]
    rfl
  by_cases h8 : 0x20 ≤ c.toNat ∧ c.toNat ≤ 0x7e
  · rw [escapeChar, if_neg h1, if_neg h2, if_neg h3, if_neg h4, if_neg h5,
      if_neg h6, if_neg h7, if_pos h8]
    simp only [List.cons_append, List.nil_append]
    rw [lexString_plain t h1 h2 h8.1]
    rfl
  by_cases h9 : c.toNat < 0x10000
  · rw [escapeChar, if_neg h1, if_neg h2, if_neg h3, if_neg h4, if_neg h5,
      if_neg h6, if_neg h7, if_neg h8, if_pos h9]
    simp only [List.cons_append]
    rw [lexString_esc (lexEscape_u_bmp c.toNat t h9
      ((char_valid_cases c).imp id And.left))]
    rw [Char.ofNat_toNat]
    have hdrop : ('u' :: (hex4 c.toNat ++ t)).drop (6 - 1) = t := by
      rw [hex4]
      rfl
    rw [hdrop]
    have hlen : ('\\' :: 'u' :: hex4 c.toNat).length = 6 := by
      rw [hex4]
      rfl
    rw [hlen]
  · rw [escapeChar, if_neg h1, if_neg h2, if_neg h3, if_neg h4, if_neg h5,
      if_neg h6, if_neg h7, if_neg h8, if_neg h9]
    have hct : c.toNat < 0x110000 := by
      rcases char_valid_cases c with h | h
      · omega
      · exact h.2
    have hge : 0x10000 ≤ c.toNat := by omega
    simp only [List.cons_append, List.append_assoc]
    rw [lexString_esc (lexEscape_u_pair (0xd800 + (c.toNat - 0x10000) / 0x400)
      (0xdc00 + (c.toNat - 0x10000) % 0x400) t
      (by omega) (by omega) (by omega) (by omega))]
    have hdec : 0x10000 + (0xd800 + (c.toNat - 0x10000) / 0x400 - 0xd800) * 0x400 +
        (0xdc00 + (c.toNat - 0x10000) % 0x400 - 0xdc00) = c.toNat := by omega
    rw [hdec, Char.ofNat_toNat]
    have hdrop : ('u' :: (hex4 (0xd800 + (c.toNat - 0x10000) / 0x400) ++
        ('\\' :: ('u' :: (hex4 (0xdc00 + (c.toNat - 0x10000) % 0x400) ++ t))))).drop
          (12 - 1) = t := by
      rw [hex4, hex4]
      rfl
    rw [hdrop]
    have hlen : ('\\' :: ('u' :: (hex4 (0xd800 + (c.toNat - 0x10000) / 0x400) ++
        ('\\' :: ('u' :: hex4 (0xdc00 + (c.toNat - 0x10000) % 0x400)))))).length
          = 12 := by
      rw [hex4, hex4]
      rfl
    rw [hlen]

theorem lexString_body : ∀ s rest : List Char,
    lexString ((s.map escapeChar).flatten ++ ('"' :: rest)) =
      some (s, ((s.map escapeChar).flatten).length + 1) := by
  intro s
  induction s with
  | nil =>
    intro rest
    simp only [List.map_nil, List.flatten_nil, List.nil_append, List.length_nil]
    exact lexString_quote rest
  | cons c s' ih =>
    intro rest
    simp only [List.map_cons, List.flatten_cons, List.append_assoc]
    rw [lexString_escapeChar c, ih rest]
    simp only [consChar, List.length_append]
    try (congr 1)
    try omega

theorem lexJson_ws (rest : List Char) : lexJson (' ' :: rest) = lexJson rest := by
  rw [lexJson, if_pos (by decide)]

theorem lexJson_lbrack (rest : List Char) :
    lexJson ('[' :: rest) = (lexJson rest).map (fun ts => JTok.lbrack :: ts) := by
  rw [lexJson, if_neg (by decide), if_pos rfl]

theorem lexJson_rbrack (rest : List Char) :
    lexJson (']' :: rest) = (lexJson rest).map (fun ts => JTok.rbrack :: ts) := by
  rw [lexJson, if_neg (by decide), if_neg (by decide), if_pos rfl]

theorem lexJson_lbrace (rest : List Char) :
    lexJson ('{' :: rest) = (lexJson rest).map (fun ts => JTok.lbrace :: ts) := by
  rw [lexJson, if_neg (by decide), if_neg (by decide), if_neg (by decide),
    if_pos rfl]

theorem lexJson_rbrace (rest : List Char) :
    lexJson ('}' :: rest) = (lexJson rest).map (fun ts => JTok.rbrace :: ts) := by
  rw [lexJson, if_neg (by decide), if_neg (by decide), if_neg (by decide),
    if_neg (by decide), if_pos rfl]

theorem lexJson_comma (rest : List Char) :
    lexJson (',' :: rest) = (lexJson rest).map (fun ts => JTok.comma :: ts) := by
  rw [lexJson, if_neg (by decide), if_neg (by decide), if_neg (by decide),
    if_neg (by decide), if_neg (by decide), if_pos rfl]

theorem lexJson_colon (rest : List Char) :
    lexJson (':' :: rest) = (lexJson rest).map (fun ts => JTok.colon :: ts) := by
  rw [lexJson, if_neg (by decide), if_neg (by decide), if_neg (by decide),
    if_neg (by decide), if_neg (by decide), if_neg (by decide), if_pos rfl]

theorem lexJson_dumpString (s rest : List Char) :
    lexJson (dumpString s ++ rest) =
      (lexJson rest).map (fun ts => JTok.tstr s :: ts) := by
  have hassoc : dumpString s ++ rest =
      '"' :: ((s.map escapeChar).flatten ++ ('"' :: rest)) := by
    rw [dumpString]
    simp
  rw [hassoc]
  rw [lexJson, if_neg (by decide), if_neg (by decide), if_neg (by decide),
    if_neg (by decide), if_neg (by decide), if_neg (by decide),
    if_neg (by decide), if_pos rfl, lexString_body]
  dsimp only
  have hdrop : ((s.map escapeChar).flatten ++ ('"' :: rest)).drop
      (((s.map escapeChar).flatten).length + 1) = rest := by
    rw [show (s.map escapeChar).flatten ++ ('"' :: rest) =
      ((s.map escapeChar).flatten ++ ['"']) ++ rest by simp]
    rw [show ((s.map escapeChar).flatten).length + 1 =
      ((s.map escapeChar).flatten ++ ['"']).length by simp]
    exact List.drop_left _ _
  rw [hdrop]

theorem lexJson_natDump (n : Nat) (rest : List Char)
    (hd : ∀ c, rest.head? = some c → isDigitCh c = false) :
    lexJson (natDump n ++ rest) =
      (lexJson rest).map (fun ts => JTok.tint ((n : Int)) :: ts) := by
  cases hnd : natDump n with
  | nil => exact absurd hnd (natDump_ne_nil n)
  | cons d ds =>
    have hdig : ∀ c ∈ d :: ds, isDigitCh c = true := by
      rw [← hnd]
      exact natDump_digits n
    have hdigd := hdig d (List.mem_cons_self d ds)
    have hsp := isDigitCh_not_special hdigd
    rw [List.cons_append]
    rw [lexJson, if_neg (by rw [hsp.1]; simp), if_neg hsp.2.1, if_neg hsp.2.2.1,
      if_neg hsp.2.2.2.1, if_neg hsp.2.2.2.2.1, if_neg hsp.2.2.2.2.2.1,
      if_neg hsp.2.2.2.2.2.2.1, if_neg hsp.2.2.2.2.2.2.2.1,
      if_neg hsp.2.2.2.2.2.2.2.2, if_pos hdigd]
    have htw : (ds ++ rest).takeWhile isDigitCh = ds :=
      takeWhile_all_append ds rest
        (fun c hc => hdig c (List.mem_cons_of_mem d hc)) hd
    rw [htw]
    dsimp only
    have hdrop : (ds ++ rest).drop ds.length = rest := List.drop_left _ _
    rw [hdrop]
    have hval : digitsToNat (d :: ds) = n := by
      rw [← hnd]
      exact natDump_val n
    rw [hval]

theorem lexJson_intDump (i : Int) (rest : List Char)
    (hd : ∀ c, rest.head? = some c → isDigitCh c = false) :
    lexJson (intDump i ++ rest) =
      (lexJson rest).map (fun ts => JTok.tint i :: ts) := by
  rw [intDump]
  by_cases hneg : i < 0
  · rw [if_pos hneg, List.cons_append]
    rw [lexJson, if_neg (by decide), if_neg (by decide), if_neg (by decide),
      if_neg (by decide), if_neg (by decide), if_neg (by decide),
      if_neg (by decide), if_neg (by decide), if_pos rfl]
    have htw : (natDump (-i).toNat ++ rest).takeWhile isDigitCh =
        natDump (-i).toNat :=
      takeWhile_all_append _ rest (natDump_digits _) hd
    rw [htw, if_neg (natDump_ne_nil _)]
    rw [List.drop_left]
    have hval : digitsToNat (natDump (-i).toNat) = (-i).toNat := natDump_val _
    rw [hval]
    have hi : -(((-i).toNat : Int)) = i := by omega
    rw [hi]
  · rw [if_neg hneg]
    rw [lexJson_natDump i.toNat rest hd]
    have hi : ((i.toNat : Nat) : Int) = i := by omega
    rw [hi]

theorem lexJson_nil : lexJson [] = some [] := by
  rw [lexJson]

theorem joinSep_map_cons {α : Type} (f : α → List Char) :
    ∀ (xs : List α) (x : α),
    joinSep ((x :: xs).map f) = f x ++ (xs.map (fun y => ',' :: ' ' :: f y)).flatten := by
  intro xs
  induction xs with
  | nil =>
    intro x
    simp [joinSep]
  | cons y ys ih =>
    intro x
    simp only [List.map_cons] at *
    rw [joinSep, ih y]
    simp

theorem dumpRec_eq (r : JRec) :
    dumpRec r = '{' :: joinSep (r.map pairDump) ++ ['}'] := rfl

theorem joinSep_pairDump (p : List Char × JVal) (ps : JRec) :
    joinSep ((p :: ps).map pairDump) = pairDump p ++ pairsSepDump ps := by
  rw [joinSep_map_cons pairDump ps p]
  rfl

theorem joinSep_dumpRec (r : JRec) (rs : List JRec) :
    joinSep ((r :: rs).map dumpRec) = dumpRec r ++ recsSepDump rs := by
  rw [joinSep_map_cons dumpRec rs r]
  rfl

theorem pairsSepDump_cons (p : List Char × JVal) (ps : JRec) :
    pairsSepDump (p :: ps) = ',' :: ' ' :: (pairDump p ++ pairsSepDump ps) := by
  simp [pairsSepDump]

theorem recsSepDump_cons (r : JRec) (rs : List JRec) :
    recsSepDump (r :: rs) = ',' :: ' ' :: (dumpRec r ++ recsSepDump rs) := by
  simp [recsSepDump]

theorem pairsSep_head_not_digit (ps : JRec) (rest : List Char) :
    ∀ c, (pairsSepDump ps ++ '}' :: rest).head? = some c → isDigitCh c = false := by
  cases ps with
  | nil =>
    intro c h
    simp [pairsSepDump] at h
    subst h
    rfl
  | cons p ps' =>
    intro c h
    rw [pairsSepDump_cons] at h
    simp at h
    subst h
    rfl

theorem lexJson_pairDump (p : List Char × JVal) (tail : List Char)
    (hd : ∀ c, tail.head? = some c → isDigitCh c = false) :
    lexJson (pairDump p ++ tail) =
      (lexJson tail).map
        (fun ts => JTok.tstr p.1 :: JTok.colon :: valTok p.2 :: ts) := by
  rw [pairDump, List.append_assoc]
  rw [lexJson_dumpString]
  simp only [List.cons_append]
  rw [lexJson_colon, lexJson_ws]
  cases hv : p.2 with
  | jstr s =>
    simp only [dumpVal]
    rw [lexJson_dumpString]
    simp only [Option.map_map]
    rfl
  | jint i =>
    simp only [dumpVal]
    rw [lexJson_intDump i tail hd]
    simp only [Option.map_map]
    rfl

theorem lexJson_pairsSep : ∀ (ps : JRec) (rest : List Char),
    lexJson (pairsSepDump ps ++ ('}' :: rest)) =
      (lexJson rest).map (fun ts => pairsRestToks ps ++ ts) := by
  intro ps
  induction ps with
  | nil =>
    intro rest
    simp only [pairsSepDump, List.map_nil, List.flatten_nil, List.nil_append]
    rw [lexJson_rbrace]
    rfl
  | cons p ps' ih =>
    intro rest
    rw [pairsSepDump_cons]
    simp only [List.cons_append, List.append_assoc]
    rw [lexJson_comma, lexJson_ws,
      lexJson_pairDump p _ (pairsSep_head_not_digit ps' rest), ih rest]
    simp only [Option.map_map]
    rfl

theorem lexJson_dumpRec (r : JRec) (rest : List Char) :
    lexJson (dumpRec r ++ rest) =
      (lexJson rest).map (fun ts => recToks r ++ ts) := by
  cases r with
  | nil =>
    rw [show dumpRec [] ++ rest = '{' :: '}' :: rest from rfl]
    rw [lexJson_lbrace, lexJson_rbrace]
    simp only [Option.map_map]
    rfl
  | cons p ps =>
    rw [dumpRec_eq, joinSep_pairDump]
    simp only [List.cons_append, List.append_assoc, List.singleton_append,
      List.nil_append]
    rw [lexJson_lbrace,
      lexJson_pairDump p _ (pairsSep_head_not_digit ps rest),
      lexJson_pairsSep ps rest]
    simp only [Option.map_map]
    rfl

theorem lexJson_recsSep : ∀ (rs : List JRec) (rest : List Char),
    lexJson (recsSepDump rs ++ (']' :: rest)) =
      (lexJson rest).map (fun ts => recsRestToks rs ++ ts) := by
  intro rs
  induction rs with
  | nil =>
    intro rest
    simp only [recsSepDump, List.map_nil, List.flatten_nil, List.nil_append]
    rw [lexJson_rbrack]
    rfl
  | cons r rs' ih =>
    intro rest
    rw [recsSepDump_cons]
    simp only [List.cons_append, List.append_assoc]
    rw [lexJson_comma, lexJson_ws, lexJson_dumpRec r _, ih rest]
    simp only [Option.map_map]
    congr 1
    funext ts
    simp [recsRestToks, List.append_assoc]

theorem lexJson_dumpFile : ∀ recs : List JRec,
    lexJson (dumpFile recs) = some (fileToks recs) := by
  intro recs
  cases recs with
  | nil =>
    rw [show dumpFile [] = '[' :: ']' :: [] from rfl]
    rw [lexJson_lbrack, lexJson_rbrack, lexJson_nil]
    rfl
  | cons r rs =>
    rw [show dumpFile (r :: rs) =
      '[' :: (joinSep ((r :: rs).map dumpRec) ++ [']']) from rfl]
    rw [joinSep_dumpRec]
    simp only [List.append_assoc, List.singleton_append]
    rw [lexJson_lbrack, lexJson_dumpRec r _,
      show (']' : Char) :: [] = ']' :: ([] : List Char) from rfl,
      lexJson_recsSep rs [], lexJson_nil]
    simp only [Option.map_map, Option.map_some]
    rw [fileToks]
    simp

theorem parseValTok_valTok (v : JVal) : parseValTok (valTok v) = some v := by
  cases v <;> rfl

theorem parsePairsRest_toks : ∀ (ps : JRec) (ts : List JTok),
    parsePairsRest (pairsRestToks ps ++ ts) =
      some (ps, (pairsRestToks ps).length) := by
  intro ps
  induction ps with
  | nil => intro ts; rfl
  | cons p ps' ih =>
    intro ts
    rw [pairsRestToks]
    simp only [List.cons_append]
    rw [parsePairsRest, parseValTok_valTok p.2, ih ts]
    simp [pairsRestToks]
    omega

theorem parseRecTok_toks : ∀ (r : JRec) (ts : List JTok),
    parseRecTok (recToks r ++ ts) = some (r, (recToks r).length) := by
  intro r ts
  cases r with
  | nil => rfl
  | cons p ps =>
    rw [recToks]
    simp only [List.cons_append]
    rw [parseRecTok, parseValTok_valTok p.2, parsePairsRest_toks ps ts]
    simp [recToks]
    omega

theorem parseRecsRest_toks : ∀ (rs : List JRec) (ts : List JTok),
    parseRecsRest (recsRestToks rs ++ ts) =
      some (rs, (recsRestToks rs).length) := by
  intro rs
  induction rs with
  | nil =>
    intro ts
    rw [recsRestToks]
    simp only [List.cons_append, List.nil_append]
    rw [parseRecsRest]
    rfl
  | cons r rs' ih =>
    intro ts
    rw [recsRestToks]
    simp only [List.cons_append, List.append_assoc]
    rw [parseRecsRest, parseRecTok_toks r (recsRestToks rs' ++ ts)]
    dsimp only
    rw [List.drop_left]
    rw [ih ts]
    simp [recsRestToks]
    omega

theorem recToks_head : ∀ r : JRec, ∃ ts', recToks r = JTok.lbrace :: ts' := by
  intro r
  cases r with
  | nil => exact ⟨[JTok.rbrace], rfl⟩
  | cons p ps =>
    exact ⟨JTok.tstr p.1 :: JTok.colon :: valTok p.2 :: pairsRestToks ps, rfl⟩

theorem parseTokens_cons_lbrace (ts : List JTok) :
    parseTokens (JTok.lbrack :: JTok.lbrace :: ts) =
      match parseRecTok (JTok.lbrace :: ts) with
      | none => none
      | some (r, k) =>
        match parseRecsRest ((JTok.lbrace :: ts).drop k) with
        | none => none
        | some (rs, m) =>
          if ((JTok.lbrace :: ts).drop k).drop m = [] then some (r :: rs)
          else none := by
  rw [parseTokens]
  intro ts1 h
  simp at h

theorem parseTokens_fileToks : ∀ recs : List JRec,
    parseTokens (fileToks recs) = some recs := by
  intro recs
  cases recs with
  | nil => rfl
  | cons r rs =>
    rw [fileToks]
    obtain ⟨ts', hts'⟩ := recToks_head r
    rw [hts']
    simp only [List.cons_append]
    rw [parseTokens_cons_lbrace]
    rw [show JTok.lbrace :: (ts' ++ recsRestToks rs) =
      recToks r ++ recsRestToks rs by rw [hts']; rfl]
    rw [parseRecTok_toks r (recsRestToks rs)]
    dsimp only
    rw [List.drop_left]
    have hrr := parseRecsRest_toks rs []
    rw [List.append_nil] at hrr
    rw [hrr]
    dsimp only
    rw [List.drop_length]
    simp

theorem parseJsonFile_dumpFile (recs : List JRec) :
    parseJsonFile (dumpFile recs) = some recs := by
  rw [parseJsonFile, lexJson_dumpFile recs]
  dsimp only
  rw [parseTokens_fileToks recs]

/-- C8: For every filter output, loading the written file contents back
with the plain path-taking loader (load_TestData with no example cap)
reproduces exactly the filtered subset of records the filter retained,
record for record: filter_token_size writes json.dumps of each retained
subset, and json.load of that text is the identity on it. -/
theorem c8_filter_load_round_trip (train_file valid_file : List Char)
    (js_train js_valid : List JRec) (t : Int) (ft fd : List JRec)
    (hft : filterTokenRecords js_train t = .ok ft)
    (hfd : filterTokenRecords js_valid t = .ok fd) :
    filter_token_size train_file valid_file js_train js_valid t =
      .ok [(filterNewName train_file t, dumpFile ft),
           (filterNewName valid_file t, dumpFile fd)] ∧
    load_TestData (dumpFile ft) (-1) = some ft ∧
    load_TestData (dumpFile fd) (-1) = some fd := by
  refine ⟨?_, ?_, ?_⟩
  · rw [filter_token_size, hft, hfd]
  · rw [load_TestData, parseJsonFile_dumpFile ft]
    simp [truncateExamples]
  · rw [load_TestData, parseJsonFile_dumpFile fd]
    simp [truncateExamples]

/-- Witness for C8 on the spec's concrete filter input with threshold 100:
the retained subset round-trips through the written file contents. -/
theorem c8_filter_load_round_trip_witness :
    filter_token_size "train.json".toList "valid.json".toList
        [[(numPromptTokensKey, JVal.jint 10)], [(numPromptTokensKey, JVal.jint 999)]]
        [] 100 =
      .ok [(filterNewName "train.json".toList 100,
            dumpFile [[(numPromptTokensKey, JVal.jint 10)]]),
           (filterNewName "valid.json".toList 100, dumpFile [])] ∧
    load_TestData (dumpFile [[(numPromptTokensKey, JVal.jint 10)]]) (-1) =
      some [[(numPromptTokensKey, JVal.jint 10)]] ∧
    load_TestData (dumpFile []) (-1) = some [] :=
  c8_filter_load_round_trip "train.json".toList "valid.json".toList
    [[(numPromptTokensKey, JVal.jint 10)], [(numPromptTokensKey, JVal.jint 999)]]
    [] 100 [[(numPromptTokensKey, JVal.jint 10)]] [] rfl rfl
